import Mathlib

set_option autoImplicit false

/-!
# Verification development for the multi-client file-storage server

Shallow embedding of `dropbox_server.c` (user directory, storage handlers,
protocol session) and of the download reader of `dropbox_client.c`.

Modelling conventions.

* A byte is a natural number; a C string is the list of its bytes before the
  terminating NUL.  `strcmp(a, b) == 0` on C strings is list equality,
  `strncpy` into a zeroed buffer of `n + 1` bytes keeps the first `n` bytes.
* `size_t` is a natural number below `SIZE_MOD = 2 ^ 64`; additions and
  subtractions on it are written with an explicit reduction modulo `SIZE_MOD`.
* The linked lists `users` and `User.files` are Lean lists, head first.
* The file system is a map from path strings to the contents of regular
  files.  Paths are opaque keys; directories and path resolution (`.`, `..`,
  nested directories) are not computed.  What they decide is taken from the
  world as given facts: whether `rename` to a destination is refused,
  whether `open` for writing a destination is refused, and what `stat` and
  `mkdir` answer inside `ensure_dir`.  A world that does not state them
  refuses nothing.  `unlink` and `open` for reading fail only on a path that
  holds no file; resource exhaustion (`calloc`, `malloc`, disk space) is
  outside the model.
* Every handler is a sequential state transformer.  A task pushed by a
  session is run to completion by `run_task`; the session goes on to its
  reply only when its wait for the completion signal returns, and the
  environment of the pass says whether the signal was sent too early and is
  lost, in which case the session stays blocked.  A pass can also end the
  whole process (`exit` inside `ensure_dir` during SIGNUP).
* The transport is the list of byte segments still to arrive; `recv` returns
  bytes of the first segment only, as a stream socket does.
* The two queues are modelled at the level of their fields (array and
  counters, `next` pointers); a call that would wait on its condition variable
  is undefined (`none`).
* Where threads matter (the quota test of `handle_upload`, the completion
  signal of a task) the statements between lock operations are the atomic
  steps of a step function, and an interleaving is a list of thread choices.
-/

namespace Dropbox

/-! ## Bytes and C strings -/

abbrev Byte := Nat

abbrev CStr := List Byte

/-- The bytes of a string literal. -/
def bytes (s : String) : List Byte := s.toList.map Char.toNat

/-- View of a buffer as a C string: the bytes before the first NUL. -/
def cstr (buf : List Byte) : CStr := buf.takeWhile (fun b => b != 0)

/-- Effect of `strncpy(dst, src, n)` into a zero-filled buffer of more than
`n` bytes, read back as a C string. -/
def strncpy (src : CStr) (n : Nat) : CStr := src.take n

/-! ## Constants -/

def CLIENT_Q_CAP : Nat := 256
def MAX_FILENAME : Nat := 256
def USERNAME_MAX : Nat := 64
def PASS_MAX : Nat := 64
def MAX_QUOTA : Nat := 50 * 1024 * 1024
def TMP_DIR : CStr := bytes "tmp_storage"
def STORAGE_DIR : CStr := bytes "storage"

/-- Number of values of `size_t`. -/
def SIZE_MOD : Nat := 2 ^ 64

/-- The `size_t` sum `a + b`. -/
def size_add (a b : Nat) : Nat := (a + b) % SIZE_MOD

/-- The `size_t` difference `a - b` (wraps around below zero). -/
def size_sub (a b : Nat) : Nat := (a + (SIZE_MOD - b % SIZE_MOD)) % SIZE_MOD

/-! ## User directory -/

structure FileNode where
  name : CStr
  size : Nat
  deriving DecidableEq, Repr

structure User where
  username : CStr
  password : CStr
  used : Nat
  files : List FileNode
  deriving DecidableEq, Repr

/-- The global `users` list. -/
abbrev Users := List User

def user_find_locked : Users → CStr → Option User
  | [], _ => none
  | u :: rest, username =>
    if u.username = username then some u else user_find_locked rest username

/-- The locked section of `user_create`, up to `pthread_mutex_unlock`: the
new `users` list and the value that the call returns when it returns.  The
two `ensure_dir` calls behind the locked section, which can end the process,
are part of `user_create_call`. -/
def user_create (users : Users) (username password : CStr) : Int × Users :=
  if (user_find_locked users username).isSome then (-1, users)
  else
    (0, { username := strncpy username (USERNAME_MAX - 1),
          password := strncpy password (PASS_MAX - 1),
          used := 0, files := [] } :: users)

def user_check_password (users : Users) (username password : CStr) : Int :=
  match user_find_locked users username with
  | none => -1
  | some u => if u.password = password then 0 else -1

/-- Apply `f` to the account that `user_find_locked` returns for `username`
(the update through the pointer `u`). -/
def update_found (f : User → User) : Users → CStr → Users
  | [], _ => []
  | u :: rest, username =>
    if u.username = username then f u :: rest
    else u :: update_found f rest username

def user_add_file (users : Users) (username filename : CStr) (size : Nat) : Users :=
  update_found
    (fun u => { u with files := { name := filename, size := size } :: u.files,
                       used := size_add u.used size })
    users username

/-- The `while (*pp)` loop of `user_remove_file`: unlink the first record
named `filename`; returns its size and the remaining list. -/
def remove_first : List FileNode → CStr → Option (Nat × List FileNode)
  | [], _ => none
  | f :: rest, filename =>
    if f.name = filename then some (f.size, rest)
    else
      match remove_first rest filename with
      | none => none
      | some (sz, rest') => some (sz, f :: rest')

/-- Returns the C return value, the value left in `*out_size` (given its
initial value) and the new `users` list. -/
def user_remove_file (users : Users) (username filename : CStr) (out_size : Nat) :
    Int × Nat × Users :=
  match user_find_locked users username with
  | none => (-1, out_size, users)
  | some u =>
    match remove_first u.files filename with
    | none => (-1, out_size, users)
    | some (sz, rest) =>
      (0, sz, update_found (fun v => { v with files := rest, used := size_sub v.used sz })
                users username)

/-- Sum of `size` over a file list. -/
def files_total (fs : List FileNode) : Nat := (fs.map FileNode.size).sum

/-- One call on the user directory. -/
inductive DirOp where
  | create (username password : CStr)
  | add (username filename : CStr) (size : Nat)
  | remove (username filename : CStr)
  deriving Repr

def DirOp.apply (users : Users) : DirOp → Users
  | .create u p => (user_create users u p).2
  | .add u f s => user_add_file users u f s
  | .remove u f => (user_remove_file users u f 0).2.2

/-- Run a sequence of directory calls, first call first. -/
def run_ops (users : Users) (ops : List DirOp) : Users :=
  ops.foldl DirOp.apply users

/-! ## File system, tasks and the world state -/

/-- Regular files by path: `none` when the path holds no file. -/
abbrev FS := CStr → Option (List Byte)

/-- Result of `unlink(path)`: the file is gone afterwards (the call fails when
it did not exist, which no caller looks at except `handle_delete`). -/
def fs_unlink (fs : FS) (path : CStr) : Int × FS :=
  match fs path with
  | none => (-1, fs)
  | some _ => (0, fun p => if p = path then none else fs p)

/-- Result of writing `data` to `path` opened with `O_CREAT | O_TRUNC`. -/
def fs_write (fs : FS) (path : CStr) (data : List Byte) : FS :=
  fun p => if p = path then some data else fs p

/-- Result of `rename(src, dst)`.  The call fails when `src` does not exist,
and also when `blocked src dst` holds: the file system refuses the call
because the destination names a directory, a directory on the way to it does
not exist, or the two paths are on different file systems.  A failed call
changes nothing. -/
def fs_rename (fs : FS) (blocked : CStr → CStr → Bool) (src dst : CStr) : Int × FS :=
  match fs src with
  | none => (-1, fs)
  | some data =>
    if blocked src dst then (-1, fs)
    else (0, fun p => if p = dst then some data else if p = src then none else fs p)

/-- The function `safe_copy_file`: nothing happens when `src` cannot be
opened, and nothing happens when `open(dst, O_WRONLY | O_CREAT | O_TRUNC)`
fails, which is when `blocked dst` holds (the destination names a directory,
or a directory on the way to it does not exist). -/
def safe_copy_file (fs : FS) (blocked : CStr → Bool) (src dst : CStr) : FS :=
  match fs src with
  | none => fs
  | some data => if blocked dst then fs else fs_write fs dst data

inductive TaskType where
  | TASK_UPLOAD | TASK_DOWNLOAD | TASK_DELETE | TASK_LIST
  deriving DecidableEq, Repr

structure Task where
  type : TaskType
  username : CStr
  filename : CStr
  tmp_path : CStr
  filesize : Nat
  result_buf : Option (List Byte)
  result_size : Nat
  status : Int
  errmsg : CStr
  deriving DecidableEq, Repr

/-- Shared state of the server: the user directory and the file system.  The
fields behind `fs` say what the file system answers where directories decide;
in a world that does not set them no directory exists yet and nothing is
refused. -/
structure World where
  users : Users
  fs : FS
  /-- Whether `rename(src, dst)` fails although `src` exists. -/
  rename_blocked : CStr → CStr → Bool := fun _ _ => false
  /-- Whether `open(dst, O_WRONLY | O_CREAT | O_TRUNC)` fails. -/
  create_blocked : CStr → Bool := fun _ => false
  /-- Answer of `stat(path)`: `none` when the call fails, otherwise whether
  the path is a directory (`S_ISDIR`). -/
  stat_dir : CStr → Option Bool := fun _ => none
  /-- Whether `mkdir(path, 0755)` fails with an error other than `EEXIST` (as
  it does when the parent directory is missing). -/
  mkdir_fails : CStr → Bool := fun _ => false

/-- C string left by `snprintf(buf, n, ...)` when the formatted text is `s`. -/
def snprintf (n : Nat) (s : List Byte) : CStr := s.take (n - 1)

/-- The function `ensure_dir`: `true` when the call returns, `false` when it
ends the process (`exit(1)` for a path that is not a directory,
`perror_exit("mkdir")` when `mkdir` fails). -/
def ensure_dir (w : World) (path : CStr) : Bool :=
  match w.stat_dir path with
  | some true => true
  | some false => false
  | none => !w.mkdir_fails path

/-- One call of `user_create` as a whole: the locked section `user_create`
above, then, when the account was added, `ensure_dir(STORAGE_DIR)` and
`ensure_dir` of `"%s/%s", STORAGE_DIR, username` in a buffer of 512 bytes.
The result is `none` when `ensure_dir` ends the process; the account is in
the list by then. -/
def user_create_call (w : World) (username password : CStr) : Option (Int × Users) :=
  let r := user_create w.users username password
  if r.1 ≠ 0 then some r
  else if ensure_dir w STORAGE_DIR &&
      ensure_dir w (snprintf 512 (STORAGE_DIR ++ bytes "/" ++ username)) then some r
  else none

/-- The path `"%s/%s/%s", STORAGE_DIR, username, filename` in a buffer of
1024 bytes. -/
def storage_path (username filename : CStr) : CStr :=
  snprintf 1024 (STORAGE_DIR ++ bytes "/" ++ username ++ bytes "/" ++ filename)

/-- Decimal digits of `n` (the conversions `%zu` and `%ld` of a value `≥ 0`). -/
def decimal (n : Nat) : List Byte := (Nat.toDigits 10 n).map Char.toNat

/-! ## Storage handlers -/

def handle_upload (t : Task) (w : World) : Task × World :=
  match user_find_locked w.users t.username with
  | none =>
    ({ t with status := -1, errmsg := snprintf 256 (bytes "User not found") },
     { w with fs := (fs_unlink w.fs t.tmp_path).2 })
  | some u =>
    if size_add u.used t.filesize > MAX_QUOTA then
      ({ t with status := -1, errmsg := snprintf 256 (bytes "Quota exceeded") },
       { w with fs := (fs_unlink w.fs t.tmp_path).2 })
    else
      let dest := storage_path t.username t.filename
      let r := fs_rename w.fs w.rename_blocked t.tmp_path dest
      let fs1 :=
        if r.1 ≠ 0 then
          (fs_unlink (safe_copy_file r.2 w.create_blocked t.tmp_path dest) t.tmp_path).2
        else r.2
      ({ t with status := 0, result_buf := some (bytes "OK\n"),
                result_size := (bytes "OK\n").length },
       { w with users := user_add_file w.users t.username t.filename t.filesize, fs := fs1 })

/-- The function `handle_download`.  In this file-system model `fstat`,
`malloc` and the read loop do not fail once the file is open, so the whole
file is read. -/
def handle_download (t : Task) (w : World) : Task × World :=
  match w.fs (storage_path t.username t.filename) with
  | none => ({ t with status := -1, errmsg := snprintf 256 (bytes "File not found") }, w)
  | some data =>
    ({ t with status := 0, result_buf := some data, result_size := data.length }, w)

/-- Text of `strerror(errno)` after a failed `unlink`.  In this file-system
model `unlink` of an existing path does not fail, so the text is never used. -/
def unlink_strerror : CStr := bytes "Operation not permitted"

def handle_delete (t : Task) (w : World) : Task × World :=
  let path := storage_path t.username t.filename
  if (w.fs path).isNone then
    ({ t with errmsg := strncpy (bytes "File not found") 255, status := -1 }, w)
  else
    let r := fs_unlink w.fs path
    if r.1 ≠ 0 then
      ({ t with errmsg := strncpy unlink_strerror 255, status := -1 }, { w with fs := r.2 })
    else
      let rm := user_remove_file w.users t.username t.filename 0
      ({ t with status := 0, result_buf := some (bytes "OK\n"),
                result_size := (bytes "OK\n").length },
       { w with users := rm.2.2, fs := r.2 })

/-! ## Listing -/

/-- The report buffer of `user_list_files`: capacity, the counter `len`, the C
string held by the buffer, and whether every write stayed inside it. -/
structure ListBuf where
  cap : Nat
  len : Nat
  text : List Byte
  in_bounds : Bool
  deriving DecidableEq, Repr

/-- The statement `len += snprintf(buf+len, cap-len, ...)` for formatted text
`s`.  With `len ≤ cap` at most `cap - len - 1` bytes and a NUL are stored at
offset `len`; they extend the C string only when it reaches up to `len`.
With `len > cap` the size argument wraps around and the write leaves the
buffer. -/
def ListBuf.append (b : ListBuf) (s : List Byte) : ListBuf :=
  if b.cap < b.len then
    { b with len := size_add b.len s.length, in_bounds := false }
  else
    { b with len := size_add b.len s.length,
             text := if b.text.length = b.len then b.text ++ s.take (b.cap - b.len - 1)
                     else b.text }

/-- Header line `"Storage used: %zu bytes\n"`. -/
def list_header (used : Nat) : List Byte :=
  bytes "Storage used: " ++ decimal used ++ bytes " bytes\n"

/-- File line `"%s (%zu bytes)\n"`. -/
def list_line (f : FileNode) : List Byte :=
  f.name ++ bytes " (" ++ decimal f.size ++ bytes " bytes)\n"

/-- One pass of the `while (f)` loop of `user_list_files`. -/
def list_step (b : ListBuf) (f : FileNode) : ListBuf :=
  let needed := size_add f.name.length 50
  let b1 := if size_add (size_add b.len needed) 1 > b.cap
            then { b with cap := (b.cap * 2) % SIZE_MOD } else b
  b1.append (list_line f)

/-- The function `user_list_files`: `none` is the NULL return. -/
def user_list_files (users : Users) (username : CStr) : Option ListBuf :=
  match user_find_locked users username with
  | none => none
  | some u =>
    let b0 : ListBuf := { cap := 1024, len := 0, text := [], in_bounds := true }
    some (u.files.foldl list_step (b0.append (list_header u.used)))

def handle_list (t : Task) (w : World) : Task × World :=
  match user_list_files w.users t.username with
  | none => ({ t with status := -1, errmsg := snprintf 256 (bytes "user not found") }, w)
  | some b =>
    ({ t with status := 0, result_buf := some b.text, result_size := b.text.length }, w)

/-- Dispatch of `worker_thread` on the task type. -/
def run_task (t : Task) (w : World) : Task × World :=
  match t.type with
  | .TASK_UPLOAD => handle_upload t w
  | .TASK_DOWNLOAD => handle_download t w
  | .TASK_DELETE => handle_delete t w
  | .TASK_LIST => handle_list t w

/-! ## Transport -/

/-- Bytes still to arrive from the peer, in the segments in which they
arrive; no segment left means the peer has closed the connection. -/
abbrev Transport := List (List Byte)

/-- The call `recv(fd, buf, k, 0)`: up to `k` bytes of the first segment that
holds data; the empty result stands for a return value `≤ 0`. -/
def recv (k : Nat) : Transport → List Byte × Transport
  | [] => ([], [])
  | seg :: rest =>
    if seg = [] then recv k rest
    else if seg.length ≤ k then (seg, rest)
    else (seg.take k, seg.drop k :: rest)

/-- Number of bytes still to arrive. -/
def pending (tr : Transport) : Nat := (tr.map List.length).sum

/-- The loop of `recv_line` with `room = maxlen - 1 - idx` bytes left in the
buffer: `none` stands for a return value `≤ 0` of `recv`. -/
def recv_line_loop : Nat → List Byte → Transport → Option (List Byte) × Transport
  | 0, acc, tr => (some acc, tr)
  | room + 1, acc, tr =>
    match recv 1 tr with
    | ([], tr1) => (none, tr1)
    | (c :: _, tr1) =>
      if c = 10 then (some (acc ++ [c]), tr1) else recv_line_loop room (acc ++ [c]) tr1

def recv_line (tr : Transport) (maxlen : Nat) : Option (List Byte) × Transport :=
  recv_line_loop (maxlen - 1) [] tr

/-! ## Sentinel framing -/

/-- The 3-byte sentinel `"EOF"`. -/
def EOF_MARK : List Byte := bytes "EOF"

/-- The scan `for (i = 0; i <= bytes - 3; i++) if (memcmp(buf + i, "EOF", 3) == 0)`
guarded by `bytes >= 3`: the first index at which the sentinel starts. -/
def find_eof (buf : List Byte) : Option Nat :=
  if 3 ≤ buf.length then
    (List.range (buf.length - 3 + 1)).find? (fun i => decide ((buf.drop i).take 3 = EOF_MARK))
  else none

/-- Outcome of a receive loop: the bytes written to the file, the counter
`total_received`, the flag `eof_found`, and the transport left over. -/
structure RecvResult where
  written : List Byte
  total_received : Nat
  eof_found : Bool
  rest : Transport

/-- The loop `while (!eof_found)` of the UPLOAD branch of `client_service`:
each pass is one `recv` of at most 8192 bytes.  `fuel` bounds the number of
passes. -/
def upload_recv_loop : Nat → Transport → List Byte → Nat → RecvResult
  | 0, tr, written, total => ⟨written, total, false, tr⟩
  | fuel + 1, tr, written, total =>
    match recv 8192 tr with
    | ([], tr1) => ⟨written, total, false, tr1⟩
    | (b :: bs, tr1) =>
      match find_eof (b :: bs) with
      | some i => ⟨written ++ (b :: bs).take i, size_add total i, true, tr1⟩
      | none =>
        upload_recv_loop fuel tr1 (written ++ (b :: bs)) (size_add total (b :: bs).length)

/-- The receive loop of the UPLOAD branch on a transport: every pass that
does not end the loop consumes at least one byte, so `pending tr` passes
are enough. -/
def upload_recv (tr : Transport) : RecvResult :=
  upload_recv_loop (pending tr) tr [] 0

/-- Client side (`dropbox_client.c`): size of the receive buffer. -/
def BUF_SIZE : Nat := 8192

/-- The loop `while (!eof_found)` of `receive_file` in the client; the counter
`total_received` is a `long`. -/
def receive_file_loop : Nat → Transport → List Byte → Int → List Byte × Int × Bool × Transport
  | 0, tr, written, total => (written, total, false, tr)
  | fuel + 1, tr, written, total =>
    match recv BUF_SIZE tr with
    | ([], tr1) => (written, total, false, tr1)
    | (b :: bs, tr1) =>
      match find_eof (b :: bs) with
      | some i => (written ++ (b :: bs).take i, total + i, true, tr1)
      | none =>
        receive_file_loop fuel tr1 (written ++ (b :: bs)) (total + ((b :: bs).length : Nat))

/-- The function `receive_file` of the client: file contents written, the
counter, and whether the sentinel was found. -/
def receive_file (tr : Transport) : List Byte × Int × Bool × Transport :=
  receive_file_loop (pending tr) tr [] 0

/-! ## Command parsing -/

/-- The C-locale `isspace`. -/
def isspace (b : Byte) : Bool := b = 32 || (9 ≤ b && b ≤ 13)

/-- One `%<width>s` conversion of `sscanf`: skip white space, then take up to
`width` bytes that are not white space; `none` when there is none.  Returns
the token and the unread input. -/
def scan_str (width : Nat) (s : CStr) : Option (CStr × CStr) :=
  let s1 := s.dropWhile isspace
  let tok := (s1.takeWhile (fun b => !isspace b)).take width
  if tok = [] then none else some (tok, s1.drop tok.length)

/-- The call `sscanf(s, "%63s %63s", user, pass)`: `some` when it returns 2. -/
def sscanf_user_pass (s : CStr) : Option (CStr × CStr) :=
  match scan_str 63 s with
  | none => none
  | some (user, r) =>
    match scan_str 63 r with
    | none => none
    | some (pass, _) => some (user, pass)

/-- The call `sscanf(s, "%255s", fname)`: `some` when it returns 1. -/
def sscanf_fname (s : CStr) : Option CStr :=
  match scan_str 255 s with
  | none => none
  | some (fname, _) => some fname

/-- The loop that strips trailing `'\n'` and `'\r'` from the line. -/
def strip_eol (line : List Byte) : List Byte :=
  (line.reverse.dropWhile (fun b => b = 10 || b = 13)).reverse

/-! ## Protocol session -/

/-- Local variables of `client_service` that live across commands. -/
structure Session where
  current_user : CStr
  logged_in : Bool
  deriving DecidableEq, Repr

/-- Bytes sent by `send_error(client_fd, msg)`. -/
def send_error (msg : CStr) : List Byte :=
  snprintf 512 (bytes "ERR " ++ msg ++ bytes "\n")

/-- Bytes sent by `send_ok(client_fd)`. -/
def send_ok : List Byte := bytes "OK\n"

/-- Effect of one pass of the `while (1)` loop of `client_service`. -/
structure StepOut where
  sess : Session
  world : World
  tr : Transport
  /-- Bytes sent to the client during the pass. -/
  out : List Byte
  /-- The pass ended with `close(client_fd); return`. -/
  closed : Bool
  /-- Tasks handed to `push_task` during the pass. -/
  tasks : List Task
  /-- The pass ended the whole process (`exit` inside `ensure_dir`). -/
  exited : Bool
  /-- The pass never ends: the session stays in `pthread_cond_wait` on a task
  whose completion signal was sent before the wait began. -/
  blocked : Bool

/-- A task as `calloc` returns it. -/
def Task.blank (type : TaskType) : Task :=
  { type := type, username := [], filename := [], tmp_path := [], filesize := 0,
    result_buf := none, result_size := 0, status := 0, errmsg := [] }

/-- The temporary file name `"%s/%s_%ld.tmp", TMP_DIR, fname, (long)time(NULL)`
in a buffer of 512 bytes. -/
def tmp_name (fname : CStr) (now : Nat) : CStr :=
  snprintf 512 (TMP_DIR ++ bytes "/" ++ fname ++ bytes "_" ++ decimal now ++ bytes ".tmp")

/-- The branch `if (!logged_in)` of `client_service` on the command `buf`. -/
def unauth_command (s : Session) (w : World) (tr : Transport) (buf : CStr) : StepOut :=
  if buf.take 7 = bytes "SIGNUP " then
    match sscanf_user_pass (buf.drop 7) with
    | none =>
      ⟨s, w, tr, send_error (bytes "Usage: SIGNUP <user> <pass>"), false, [], false, false⟩
    | some (user, pass) =>
      match user_create_call w user pass with
      | none =>
        ⟨s, { w with users := (user_create w.users user pass).2 }, tr, [], false, [],
          true, false⟩
      | some r =>
        if r.1 = 0 then ⟨s, { w with users := r.2 }, tr, send_ok, false, [], false, false⟩
        else
          ⟨s, { w with users := r.2 }, tr, send_error (bytes "User exists"), false, [],
            false, false⟩
  else if buf.take 6 = bytes "LOGIN " then
    match sscanf_user_pass (buf.drop 6) with
    | none =>
      ⟨s, w, tr, send_error (bytes "Usage: LOGIN <user> <pass>"), false, [], false, false⟩
    | some (user, pass) =>
      if user_check_password w.users user pass = 0 then
        ⟨{ current_user := strncpy user (USERNAME_MAX - 1), logged_in := true }, w, tr,
          send_ok, false, [], false, false⟩
      else ⟨s, w, tr, send_error (bytes "Invalid credentials"), false, [], false, false⟩
  else

    ⟨s, w, tr, send_error (bytes "Authenticate first with SIGNUP or LOGIN"), false, [],
      false, false⟩

/-- What one pass of the command loop takes from its environment: the value
of `time(NULL)`, whether `open` of the temporary upload file succeeds, and
whether the storage worker sends the completion signal of the task before the
session has reached its `pthread_cond_wait`.  The wait has no predicate, so a
signal sent before it is lost and the wait never returns.  A wait that
returns without a signal (a spurious wake-up) is not modelled. -/
structure Env where
  now : Nat
  tmp_open_ok : Bool
  signal_lost : Bool
  deriving DecidableEq, Repr

/-- The UPLOAD branch of `client_service`.  After `push_task` a storage worker
runs the task; the session goes on to the reply only when its wait for the
completion signal returns. -/
def upload_command (env : Env) (s : Session) (w : World) (tr : Transport) (buf : CStr) :
    StepOut :=
  match sscanf_fname (buf.drop 7) with
  | none => ⟨s, w, tr, send_error (bytes "Usage: UPLOAD <filename>"), false, [], false, false⟩
  | some fname =>
    let tmpfn := tmp_name fname env.now
    if !env.tmp_open_ok then
      ⟨s, w, tr, send_error (bytes "Temp create failed"), false, [], false, false⟩
    else
      let r := upload_recv tr
      let w1 : World := { w with fs := fs_write w.fs tmpfn r.written }
      if r.total_received = 0 then
        ⟨s, { w1 with fs := (fs_unlink w1.fs tmpfn).2 }, r.rest,
          send_error (bytes "No data received"), false, [], false, false⟩
      else
        let t : Task :=
          { Task.blank .TASK_UPLOAD with
            username := strncpy s.current_user (USERNAME_MAX - 1),
            filename := strncpy fname (MAX_FILENAME - 1),
            tmp_path := strncpy tmpfn 511,
            filesize := r.total_received,
            status := -1 }
        let res := run_task t w1
        let reply :=
          if res.1.status = 0 then send_ok
          else send_error (if res.1.errmsg ≠ [] then res.1.errmsg else bytes "UPLOAD failed")
        if env.signal_lost then ⟨s, res.2, r.rest, [], false, [t], false, true⟩
        else ⟨s, res.2, r.rest, reply, false, [t], false, false⟩

/-- The DOWNLOAD branch of `client_service`. -/
def download_command (env : Env) (s : Session) (w : World) (tr : Transport) (buf : CStr) :
    StepOut :=
  match sscanf_fname (buf.drop 9) with
  | none => ⟨s, w, tr, send_error (bytes "Usage: DOWNLOAD <filename>"), false, [], false, false⟩
  | some fname =>
    let t : Task :=
      { Task.blank .TASK_DOWNLOAD with
        username := strncpy s.current_user (USERNAME_MAX - 1),
        filename := strncpy fname (MAX_FILENAME - 1),
        status := -1 }
    let res := run_task t w
    if env.signal_lost then ⟨s, res.2, tr, [], false, [t], false, true⟩
    else if res.1.status ≠ 0 then
      ⟨s, res.2, tr, send_error res.1.errmsg, false, [t], false, false⟩
    else
      let data := if res.1.result_size > 0
                  then (res.1.result_buf.getD []).take res.1.result_size else []
      ⟨s, res.2, tr, data ++ EOF_MARK, false, [t], false, false⟩

/-- The DELETE branch of `client_service`. -/
def delete_command (env : Env) (s : Session) (w : World) (tr : Transport) (buf : CStr) :
    StepOut :=
  match sscanf_fname (buf.drop 7) with
  | none => ⟨s, w, tr, send_error (bytes "Usage: DELETE <filename>"), false, [], false, false⟩
  | some fname =>
    let t : Task :=
      { Task.blank .TASK_DELETE with
        username := strncpy s.current_user (USERNAME_MAX - 1),
        filename := strncpy fname (MAX_FILENAME - 1),
        status := -1 }
    let res := run_task t w
    if env.signal_lost then ⟨s, res.2, tr, [], false, [t], false, true⟩
    else if res.1.status = 0 then ⟨s, res.2, tr, send_ok, false, [t], false, false⟩
    else ⟨s, res.2, tr, send_error res.1.errmsg, false, [t], false, false⟩

/-- The LIST branch of `client_service`. -/
def list_command (env : Env) (s : Session) (w : World) (tr : Transport) : StepOut :=
  let t : Task :=
    { Task.blank .TASK_LIST with
      username := strncpy s.current_user (USERNAME_MAX - 1),
      status := -1 }
  let res := run_task t w
  if env.signal_lost then ⟨s, res.2, tr, [], false, [t], false, true⟩
  else if res.1.status = 0 then
    ⟨s, res.2, tr, (res.1.result_buf.getD []).take res.1.result_size ++ bytes "END_OF_LIST\n",
      false, [t], false, false⟩
  else ⟨s, res.2, tr, send_error res.1.errmsg, false, [t], false, false⟩

/-- The commands of a logged-in session. -/
def auth_command (env : Env) (s : Session) (w : World) (tr : Transport) (buf : CStr) :
    StepOut :=
  if buf.take 7 = bytes "UPLOAD " then upload_command env s w tr buf
  else if buf.take 9 = bytes "DOWNLOAD " then download_command env s w tr buf
  else if buf.take 7 = bytes "DELETE " then delete_command env s w tr buf
  else if buf = bytes "LIST" then list_command env s w tr
  else if buf = bytes "QUIT" ∨ buf = bytes "EXIT" then ⟨s, w, tr, [], true, [], false, false⟩
  else ⟨s, w, tr, send_error (bytes "Unknown command"), false, [], false, false⟩

/-- One pass of the `while (1)` loop of `client_service`, on the line `raw`
that `recv_line` returned. -/
def service_line (env : Env) (s : Session) (w : World) (tr : Transport) (raw : List Byte) :
    StepOut :=
  let line := strip_eol raw
  if line.length = 0 then ⟨s, w, tr, [], false, [], false, false⟩
  else
    let buf := cstr line
    if !s.logged_in then unauth_command s w tr buf
    else auth_command env s w tr buf

/-- One pass of the `while (1)` loop of `client_service`. -/
def service_step (env : Env) (s : Session) (w : World) (tr : Transport) : StepOut :=
  match recv_line tr 2048 with
  | (none, tr1) => ⟨s, w, tr1, [], true, [], false, false⟩
  | (some raw, tr1) =>
    if raw.length = 0 then ⟨s, w, tr1, [], true, [], false, false⟩
    else service_line env s w tr1 raw

/-- The function `client_service`, for at most `fuel` passes; `env` gives the
environment of each pass.  Returns the last state, all bytes sent and all
tasks created. -/
def client_service : Nat → (Nat → Env) → Session → World → Transport → StepOut
  | 0, _, s, w, tr => ⟨s, w, tr, [], false, [], false, false⟩
  | fuel + 1, env, s, w, tr =>
    let r := service_step (env 0) s w tr
    if r.closed || r.exited || r.blocked then r
    else
      let r2 := client_service fuel (fun i => env (i + 1)) r.sess r.world r.tr
      { r2 with out := r.out ++ r2.out, tasks := r.tasks ++ r2.tasks }

/-! ## Notions used in the statements -/

/-- The quota invariant: `used` is the sum of the recorded sizes, as a
`size_t`. -/
def QuotaInv (users : Users) : Prop :=
  ∀ a ∈ users, a.used = files_total a.files % SIZE_MOD

/-- A command argument as the wire grammar has it: not empty, at most `width`
bytes, no NUL and no white space. -/
def is_token (width : Nat) (t : CStr) : Prop :=
  t ≠ [] ∧ t.length ≤ width ∧ ∀ b ∈ t, b ≠ 0 ∧ isspace b = false

/-- The session state at the start of `client_service`. -/
def Session.start : Session := { current_user := [], logged_in := false }

/-- The username of a `create` call fits the `username` field (at most
`USERNAME_MAX - 1` bytes, as the `%63s` conversions of the session ensure). -/
def DirOp.username_fits : DirOp → Bool
  | .create u _ => decide (u.length < USERNAME_MAX)
  | _ => true

/-! ## Sample inputs -/

/-- Sample world: account `u` with all of its quota used, and a temporary
upload file. -/
def sample_full_world : World :=
  { users := [{ username := bytes "u", password := bytes "p", used := MAX_QUOTA,
                files := [{ name := bytes "big", size := MAX_QUOTA }] }],
    fs := fun p => if p = bytes "tmp_storage/a_1.tmp" then some (bytes "x") else none }

/-- Sample upload task of account `u`: one byte for the file `a`. -/
def sample_upload_task : Task :=
  { Task.blank .TASK_UPLOAD with
    username := bytes "u", filename := bytes "a",
    tmp_path := bytes "tmp_storage/a_1.tmp", filesize := 1, status := -1 }

/-- Sample delete task of account `u` for the file `a`. -/
def sample_delete_task : Task :=
  { Task.blank .TASK_DELETE with
    username := bytes "u", filename := bytes "a", status := -1 }

/-- Sample world: a fresh account `u` and two temporary upload files, of 5
and of 7 bytes. -/
def sample_fresh_world : World :=
  { users := (user_create [] (bytes "u") (bytes "p")).2,
    fs := fun p =>
      if p = bytes "tmp_storage/a_1.tmp" then some (bytes "hello")
      else if p = bytes "tmp_storage/a_2.tmp" then some (bytes "goodbye")
      else none }

/-- The world after account `u` has uploaded the file `a` twice: first the 5
bytes, then the 7 bytes. -/
def sample_twice_uploaded : World :=
  (handle_upload
    { sample_upload_task with tmp_path := bytes "tmp_storage/a_2.tmp", filesize := 7 }
    (handle_upload { sample_upload_task with filesize := 5 } sample_fresh_world).2).2

/-- Sample world: the two accounts that `main` creates, and no file. -/
def sample_main_world : World :=
  { users := (user_create (user_create [] (bytes "hello") (bytes "hello1234")).2
                (bytes "test") (bytes "test123")).2,
    fs := fun _ => none }

/-- Sample session: logged in as `hello`. -/
def sample_session : Session := { current_user := bytes "hello", logged_in := true }

/-- Sample transport: `UPLOAD f`, the content `hello` in the chunks `he` and
`llo` + sentinel, then `DOWNLOAD f` arriving in two segments. -/
def sample_roundtrip : Transport :=
  [bytes "UPLOAD f\n", bytes "he", bytes "lloEOF", bytes "DOWNL", bytes "OAD f\n"]

/-- Sample directory calls: create account `u`, add the file `a` twice (5 and
7 bytes), add `b` (3 bytes) and remove `a` once. -/
def sample_dir_ops : List DirOp :=
  [.create (bytes "u") (bytes "p"), .add (bytes "u") (bytes "a") 5,
   .add (bytes "u") (bytes "a") 7, .add (bytes "u") (bytes "b") 3,
   .remove (bytes "u") (bytes "a")]

/-- The account `u` after `sample_dir_ops`. -/
def sample_account : User :=
  { username := bytes "u", password := bytes "p", used := 8,
    files := [{ name := bytes "b", size := 3 }, { name := bytes "a", size := 5 }] }

/-- Sample world: no account and no file. -/
def sample_empty_world : World := { users := [], fs := fun _ => none }

/-- Sample world: the accounts of `main`, and the file `f` of account `hello`
with content `hello`. -/
def sample_stored_world : World :=
  { users := user_add_file sample_main_world.users (bytes "hello") (bytes "f") 5,
    fs := fun p => if p = bytes "storage/hello/f" then some (bytes "hello") else none }

/-- The report as specified: the header line, then one line per file record in
list order. -/
def report_text (u : User) : List Byte :=
  list_header u.used ++ (u.files.map list_line).flatten

/-- State of the report buffer of `user_list_files` for account `u` after the
header and the lines of the first `k` records have been written. -/
def list_state (u : User) (k : Nat) : ListBuf :=
  (u.files.take k).foldl list_step
    (({ cap := 1024, len := 0, text := [], in_bounds := true } : ListBuf).append
      (list_header u.used))

/-- The report buffer holds exactly `content`: nothing was cut, every write
stayed inside the buffer, and there is room left (`len < cap`). -/
def ListBuf.holds (b : ListBuf) (content : List Byte) : Prop :=
  b.in_bounds = true ∧ b.text = content ∧ b.len = content.length ∧
  b.len < b.cap ∧ 1024 ≤ b.cap ∧ b.cap < SIZE_MOD

/-- Sample account with one file whose name has 2100 bytes. -/
def sample_long_name_account : User :=
  { username := bytes "u", password := bytes "p", used := 1,
    files := [{ name := List.replicate 2100 97, size := 1 }] }

/-! ## Concurrent uploads -/

/-- First critical section of `handle_upload` (from `pthread_mutex_lock(&users_mutex)`
to the two unlocks): the account lookup and the quota test.  Returns whether
the task goes on to the commit; when it does not, the task has failed and its
temporary file is unlinked. -/
def upload_check (t : Task) (w : World) : Bool × Task × World :=
  match user_find_locked w.users t.username with
  | none =>
    (false, { t with status := -1, errmsg := snprintf 256 (bytes "User not found") },
     { w with fs := (fs_unlink w.fs t.tmp_path).2 })
  | some u =>
    if size_add u.used t.filesize > MAX_QUOTA then
      (false, { t with status := -1, errmsg := snprintf 256 (bytes "Quota exceeded") },
       { w with fs := (fs_unlink w.fs t.tmp_path).2 })
    else (true, t, w)

/-- The rest of `handle_upload`, run without a lock held across it: the
storage commit, then `user_add_file` (which takes the locks again) and the
result fields. -/
def upload_commit (t : Task) (w : World) : Task × World :=
  let dest := storage_path t.username t.filename
  let r := fs_rename w.fs w.rename_blocked t.tmp_path dest
  let fs1 :=
    if r.1 ≠ 0 then
      (fs_unlink (safe_copy_file r.2 w.create_blocked t.tmp_path dest) t.tmp_path).2
    else r.2
  ({ t with status := 0, result_buf := some (bytes "OK\n"),
            result_size := (bytes "OK\n").length },
   { w with users := user_add_file w.users t.username t.filename t.filesize, fs := fs1 })

/-- Where a storage worker stands in `handle_upload`. -/
inductive UploadPhase where
  | start | checked | finished
  deriving DecidableEq, Repr

/-- A storage worker running `handle_upload` on its task. -/
structure UploadWorker where
  task : Task
  phase : UploadPhase
  deriving DecidableEq, Repr

/-- One scheduling step: worker `i` runs its next critical section. -/
def upload_step (i : Nat) (st : List UploadWorker × World) : List UploadWorker × World :=
  match st.1[i]? with
  | none => st
  | some wk =>
    match wk.phase with
    | .start =>
      let r := upload_check wk.task st.2
      let next : UploadPhase := if r.1 then UploadPhase.checked else UploadPhase.finished
      (st.1.set i ⟨r.2.1, next⟩, r.2.2)
    | .checked =>
      let r := upload_commit wk.task st.2
      (st.1.set i ⟨r.1, UploadPhase.finished⟩, r.2)
    | .finished => st

/-- Run the workers under a schedule (the list of worker indices, in the
order in which they take their steps). -/
def upload_schedule (sched : List Nat) (st : List UploadWorker × World) :
    List UploadWorker × World :=
  sched.foldl (fun s i => upload_step i s) st

/-- Sample world: a fresh account `u` and two temporary upload files. -/
def sample_two_tmp_world : World :=
  { users := (user_create [] (bytes "u") (bytes "p")).2,
    fs := fun p =>
      if p = bytes "tmp_storage/a_1.tmp" then some (bytes "first")
      else if p = bytes "tmp_storage/b_1.tmp" then some (bytes "second")
      else none }

/-- Upload task of account `u` for the file `b`, of 30 MiB. -/
def sample_upload_b : Task :=
  { Task.blank .TASK_UPLOAD with
    username := bytes "u", filename := bytes "b",
    tmp_path := bytes "tmp_storage/b_1.tmp", filesize := 30 * 1024 * 1024, status := -1 }

/-- Two upload tasks of account `u` for the distinct names `a` and `b`, of
30 MiB each, not yet started. -/
def sample_two_uploads : List UploadWorker :=
  [⟨{ sample_upload_task with filesize := 30 * 1024 * 1024 }, UploadPhase.start⟩,
   ⟨sample_upload_b, UploadPhase.start⟩]

/-! ## Connection admission queue -/

/-- The global `clientq`: the array `fds` (indexed below `CLIENT_Q_CAP`) and
the counters `head`, `tail`, `count` (C `int`s that stay between 0 and
`CLIENT_Q_CAP`). -/
structure ClientQ where
  fds : Nat → Int
  head : Nat
  tail : Nat
  count : Nat

/-- The initial value of `clientq`. -/
def ClientQ.init : ClientQ := { fds := fun _ => 0, head := 0, tail := 0, count := 0 }

/-- The function `push_client_fd`: `none` when the caller has to wait in
`while (clientq.count == CLIENT_Q_CAP)`. -/
def push_client_fd (q : ClientQ) (fd : Int) : Option ClientQ :=
  if q.count = CLIENT_Q_CAP then none
  else
    some { fds := fun i => if i = q.tail then fd else q.fds i,
           head := q.head,
           tail := (q.tail + 1) % CLIENT_Q_CAP,
           count := q.count + 1 }

/-- The function `pop_client_fd`: `none` when the caller has to wait in
`while (clientq.count == 0)`; otherwise the handle returned and the new
queue. -/
def pop_client_fd (q : ClientQ) : Option (Int × ClientQ) :=
  if q.count = 0 then none
  else
    some (q.fds q.head,
          { fds := q.fds, head := (q.head + 1) % CLIENT_Q_CAP, tail := q.tail,
            count := q.count - 1 })

/-- A call on the admission queue. -/
inductive QueueOp where
  | push (fd : Int)
  | pop
  deriving DecidableEq, Repr

/-- Run the calls in order, each one only when it does not have to wait:
`none` when some call would wait; otherwise the handles returned by the pops,
in order, and the final queue. -/
def run_queue : ClientQ → List QueueOp → Option (List Int × ClientQ)
  | q, [] => some ([], q)
  | q, .push fd :: ops =>
    match push_client_fd q fd with
    | none => none
    | some q1 => run_queue q1 ops
  | q, .pop :: ops =>
    match pop_client_fd q with
    | none => none
    | some (fd, q1) =>
      match run_queue q1 ops with
      | none => none
      | some (outs, q2) => some (fd :: outs, q2)

/-- The handles pushed by a sequence of calls, in order. -/
def pushed_fds : List QueueOp → List Int
  | [] => []
  | .push fd :: ops => fd :: pushed_fds ops
  | .pop :: ops => pushed_fds ops

/-- Number of pops in a sequence of calls. -/
def pop_count : List QueueOp → Nat
  | [] => 0
  | .push _ :: ops => pop_count ops
  | .pop :: ops => pop_count ops + 1

/-- The handles held by the queue, oldest first: the `count` slots from
`head` on, around the end of the array. -/
def ClientQ.contents (q : ClientQ) : List Int :=
  (List.range q.count).map (fun i => q.fds ((q.head + i) % CLIENT_Q_CAP))

/-- Consistency of the counters of the queue. -/
def ClientQ.wf (q : ClientQ) : Prop :=
  q.count ≤ CLIENT_Q_CAP ∧ q.head < CLIENT_Q_CAP ∧
  q.tail = (q.head + q.count) % CLIENT_Q_CAP

/-! ## Task queue -/

/-- The task queue as the linked list it is: tasks are named by their
addresses, `next` is the field `t->next` of each task (`none` for NULL), and
`task_head`, `task_tail` are the two global pointers. -/
structure TaskQ where
  next : Nat → Option Nat
  task_head : Option Nat
  task_tail : Option Nat

/-- The empty queue at program start. -/
def TaskQ.init : TaskQ := { next := fun _ => none, task_head := none, task_tail := none }

/-- The function `push_task` for the task at address `t`. -/
def push_task (q : TaskQ) (t : Nat) : TaskQ :=
  let next1 : Nat → Option Nat := fun a => if a = t then none else q.next a
  match q.task_tail with
  | none => { next := next1, task_head := some t, task_tail := some t }
  | some tl =>
    { next := fun a => if a = tl then some t else next1 a,
      task_head := q.task_head, task_tail := some t }

/-- The function `pop_task`: `none` when the caller has to wait in
`while (!task_head)`; otherwise the task returned and the new queue. -/
def pop_task (q : TaskQ) : Option (Nat × TaskQ) :=
  match q.task_head with
  | none => none
  | some t =>
    some (t, { next := q.next, task_head := q.next t,
               task_tail := if q.next t = none then none else q.task_tail })

/-- A call on the task queue. -/
inductive TaskOp where
  | push (t : Nat)
  | pop
  deriving DecidableEq, Repr

/-- Run the calls in order, pops only on a queue that is not empty: `none`
when a pop would wait; otherwise the tasks returned by the pops, in order,
and the final queue. -/
def run_tasks : TaskQ → List TaskOp → Option (List Nat × TaskQ)
  | q, [] => some ([], q)
  | q, .push t :: ops => run_tasks (push_task q t) ops
  | q, .pop :: ops =>
    match pop_task q with
    | none => none
    | some (t, q1) =>
      match run_tasks q1 ops with
      | none => none
      | some (outs, q2) => some (t :: outs, q2)

/-- The tasks pushed by a sequence of calls, in order. -/
def pushed_tasks : List TaskOp → List Nat
  | [] => []
  | .push t :: ops => t :: pushed_tasks ops
  | .pop :: ops => pushed_tasks ops

/-- Number of pops in a sequence of calls. -/
def task_pop_count : List TaskOp → Nat
  | [] => 0
  | .push _ :: ops => task_pop_count ops
  | .pop :: ops => task_pop_count ops + 1

/-- No task is pushed while it is still in the queue (a task has one `next`
field, and the program pushes a task once, right after creating it); `l`
lists the tasks pushed and not yet popped. -/
def fresh_pushes : List Nat → List TaskOp → Bool
  | _, [] => true
  | l, .push t :: ops => decide (t ∉ l) && fresh_pushes (l ++ [t]) ops
  | l, .pop :: ops => fresh_pushes l.tail ops

/-- The `next` pointers lead from `start` through exactly the tasks of `l`,
in order, and end in NULL. -/
def linked (next : Nat → Option Nat) : List Nat → Option Nat → Prop
  | [], start => start = none
  | a :: rest, start => start = some a ∧ linked next rest (next a)

/-- The queue holds the tasks `l`, oldest first. -/
def TaskQ.holds (q : TaskQ) (l : List Nat) : Prop :=
  linked q.next l q.task_head ∧ q.task_tail = l.getLast? ∧ l.Nodup

/-! ## Completion signal of a task -/

/-- The two threads that share a task. -/
inductive Thread where
  | client | worker
  deriving DecidableEq, Repr

/-- Next statement of the Client Worker for its task `t`, from `push_task(t)`
to the reads of `t->status`, `t->errmsg`, `t->result_buf`; `asleep` is the
thread blocked inside `pthread_cond_wait`. -/
inductive ClientPc where
  | push | lock | wait | asleep | unlock | read | done
  deriving DecidableEq, Repr

/-- Next statement of the storage worker in the body of `worker_thread`. -/
inductive WorkerPc where
  | pop | handle | lock | signal | unlock
  deriving DecidableEq, Repr

/-- State of one task and of its two threads. -/
structure SyncState where
  cpc : ClientPc
  wpc : WorkerPc
  /-- The task is in the task queue. -/
  queued : Bool
  /-- Holder of `t->mutex`. -/
  mutex : Option Thread
  /-- The client blocked in `pthread_cond_wait` has been signalled. -/
  woken : Bool
  /-- The handler has finished writing the result fields. -/
  handled : Bool
  /-- Calls of `pthread_cond_signal(&t->cond)` so far. -/
  signals : Nat
  /-- Set when the client reads the result fields: whether the handler had
  finished by then. -/
  read_after_handler : Option Bool
  deriving DecidableEq, Repr

/-- The state before `push_task(t)`, the worker waiting in `pop_task`. -/
def SyncState.init : SyncState :=
  { cpc := .push, wpc := .pop, queued := false, mutex := none, woken := false,
    handled := false, signals := 0, read_after_handler := none }

/-- One statement of the Client Worker; `none` when the thread is blocked.
`pthread_cond_wait` releases the mutex and blocks; the thread goes on only
after a signal that arrives while it is blocked, and with the mutex taken
again. -/
def client_step (s : SyncState) : Option SyncState :=
  match s.cpc with
  | .push => some { s with queued := true, cpc := .lock }
  | .lock => if s.mutex = none then some { s with mutex := some .client, cpc := .wait } else none
  | .wait => some { s with mutex := none, woken := false, cpc := .asleep }
  | .asleep =>
    if s.woken ∧ s.mutex = none then some { s with mutex := some .client, cpc := .unlock }
    else none
  | .unlock => some { s with mutex := none, cpc := .read }
  | .read => some { s with read_after_handler := some s.handled, cpc := .done }
  | .done => none

/-- One statement of the storage worker; `none` when the thread is blocked.
`pthread_cond_signal` wakes a thread only if one is blocked on the condition
variable at that moment. -/
def worker_step (s : SyncState) : Option SyncState :=
  match s.wpc with
  | .pop => if s.queued then some { s with queued := false, wpc := .handle } else none
  | .handle => some { s with handled := true, wpc := .lock }
  | .lock => if s.mutex = none then some { s with mutex := some .worker, wpc := .signal } else none
  | .signal =>
    some { s with signals := s.signals + 1,
                  woken := if s.cpc = .asleep then true else s.woken, wpc := .unlock }
  | .unlock => some { s with mutex := none, wpc := .pop }

/-- One step of the given thread. -/
def sync_step (s : SyncState) : Thread → Option SyncState
  | .client => client_step s
  | .worker => worker_step s

/-- Run an interleaving: `none` when a thread is scheduled while blocked. -/
def sync_run : SyncState → List Thread → Option SyncState
  | s, [] => some s
  | s, th :: rest =>
    match sync_step s th with
    | none => none
    | some s1 => sync_run s1 rest

/-- The state after a lost signal: the handler has finished and signalled
once, the worker is back in `pop_task`, the client is blocked in
`pthread_cond_wait` and has not been signalled. -/
def SyncState.lost_signal : SyncState :=
  { cpc := .asleep, wpc := .pop, queued := false, mutex := none, woken := false,
    handled := true, signals := 1, read_after_handler := none }

/-- The state after a completed exchange: one signal, the result read after
the handler had finished. -/
def SyncState.completed : SyncState :=
  { cpc := .done, wpc := .pop, queued := false, mutex := none, woken := true,
    handled := true, signals := 1, read_after_handler := some true }

/-! ## Tasks run one at a time -/

/-- A storage task that changes the user directory. -/
inductive StorageOp where
  | upload (t : Task)
  | delete (t : Task)
  deriving Repr

/-- Run the handler of the task to completion. -/
def StorageOp.apply (w : World) : StorageOp → World
  | .upload t => (handle_upload t w).2
  | .delete t => (handle_delete t w).2

/-- Run the tasks one at a time, first task first. -/
def run_storage (w : World) (ops : List StorageOp) : World :=
  ops.foldl StorageOp.apply w

/-- The `filesize` of an upload task is the size of a file (below `2 ^ 63`,
the range of `off_t`). -/
def StorageOp.size_fits : StorageOp → Prop
  | .upload t => t.filesize < 2 ^ 63
  | .delete _ => True

/-- Every account is as `user_create` leaves it. -/
def fresh_accounts (users : Users) : Prop :=
  ∀ a ∈ users, a.used = 0 ∧ a.files = []

/-- The exact quota invariant: `used` is the sum of the recorded sizes and is
within the quota. -/
def WithinQuota (users : Users) : Prop :=
  ∀ a ∈ users, a.used = files_total a.files ∧ a.used ≤ MAX_QUOTA

/-- Upload task of account `u` for the file `b` with `filesize = 2 ^ 64 - 1`. -/
def sample_huge_upload : Task :=
  { Task.blank .TASK_UPLOAD with
    username := bytes "u", filename := bytes "b",
    tmp_path := bytes "tmp_storage/a_2.tmp", filesize := 2 ^ 64 - 1, status := -1 }

/-- Sample tasks, run one at a time on `sample_fresh_world`: upload `a`
(1 byte), upload `b` with `filesize = 2 ^ 64 - 1`, delete `a`. -/
def sample_wrap_ops : List StorageOp :=
  [.upload { sample_upload_task with filesize := 1 }, .upload sample_huge_upload,
   .delete sample_delete_task]

/-- Sample tasks, run one at a time on `sample_fresh_world`: upload `a` twice
(5 and 7 bytes), then delete `a`. -/
def sample_fit_ops : List StorageOp :=
  [.upload { sample_upload_task with filesize := 5 },
   .upload { sample_upload_task with tmp_path := bytes "tmp_storage/a_2.tmp", filesize := 7 },
   .delete sample_delete_task]

/-- The account `u` after `sample_fit_ops`. -/
def sample_account_after_delete : User :=
  { username := bytes "u", password := bytes "p", used := 5,
    files := [{ name := bytes "a", size := 5 }] }

/-- Sample world: the accounts of `main` on a file system that refuses every
`rename` and every `open` for writing in the storage tree (as when the
account directory has been removed). -/
def sample_refusing_world : World :=
  { sample_main_world with
    rename_blocked := fun _ _ => true
    create_blocked := fun _ => true }

/-- Sample world: the accounts of `main`, the directory `storage` exists, and
`mkdir` of `storage/a/b` fails (the directory `storage/a` does not exist). -/
def sample_no_parent_world : World :=
  { sample_main_world with
    stat_dir := fun p => if p = bytes "storage" then some true else none
    mkdir_fails := fun p => decide (p = bytes "storage/a/b") }

/-! # Theorems -/

/-! ## Arithmetic on `size_t` -/

theorem size_add_mod (a b : Nat) : size_add (a % SIZE_MOD) b = (a + b) % SIZE_MOD := by
  simp only [size_add, SIZE_MOD]; omega

theorem size_sub_mod (sz r : Nat) :
    size_sub ((sz + r) % SIZE_MOD) sz = r % SIZE_MOD := by
  simp only [size_sub, SIZE_MOD]; omega

/-! ## Lookup and update in the user list -/

theorem user_find_locked_some {users : Users} {name : CStr} {u : User}
    (h : user_find_locked users name = some u) : u ∈ users ∧ u.username = name := by
  induction users with
  | nil => simp [user_find_locked] at h
  | cons v rest ih =>
    simp only [user_find_locked] at h
    split at h
    · rename_i hv
      simp only [Option.some.injEq] at h
      subst h
      exact ⟨List.mem_cons_self _ _, hv⟩
    · exact ⟨List.mem_cons_of_mem _ (ih h).1, (ih h).2⟩

theorem user_find_locked_none {users : Users} {name : CStr} :
    user_find_locked users name = none ↔ ∀ a ∈ users, a.username ≠ name := by
  induction users with
  | nil => simp [user_find_locked]
  | cons v rest ih =>
    simp only [user_find_locked, List.mem_cons, forall_eq_or_imp]
    split
    · rename_i hv; simp [hv]
    · rename_i hv; simp [hv, ih]

theorem mem_update_found {f : User → User} {users : Users} {name : CStr} {a : User}
    (h : a ∈ update_found f users name) :
    a ∈ users ∨ ∃ u, user_find_locked users name = some u ∧ a = f u := by
  induction users with
  | nil => simp [update_found] at h
  | cons v rest ih =>
    simp only [update_found] at h
    split at h
    · rename_i hv
      rcases List.mem_cons.1 h with h1 | h1
      · exact Or.inr ⟨v, by simp [user_find_locked, hv], h1⟩
      · exact Or.inl (List.mem_cons_of_mem _ h1)
    · rename_i hv
      rcases List.mem_cons.1 h with h1 | h1
      · exact Or.inl (h1 ▸ List.mem_cons_self _ _)
      · rcases ih h1 with h2 | ⟨u, h2, h3⟩
        · exact Or.inl (List.mem_cons_of_mem _ h2)
        · exact Or.inr ⟨u, by simp [user_find_locked, hv, h2], h3⟩

theorem remove_first_total {fs : List FileNode} {name : CStr} {sz : Nat}
    {rest : List FileNode} (h : remove_first fs name = some (sz, rest)) :
    files_total fs = sz + files_total rest := by
  induction fs generalizing sz rest with
  | nil => simp [remove_first] at h
  | cons f tl ih =>
    simp only [remove_first] at h
    split at h
    · simp only [Option.some.injEq, Prod.mk.injEq] at h
      obtain ⟨h1, h2⟩ := h
      subst h1 h2
      simp [files_total]
    · split at h
      · simp at h
      · rename_i sz1 rest1 heq
        simp only [Option.some.injEq, Prod.mk.injEq] at h
        obtain ⟨h1, h2⟩ := h
        subst h1 h2
        have := ih heq
        simp only [files_total, List.map_cons, List.sum_cons] at this ⊢
        omega

theorem quotaInv_apply {users : Users} (h : QuotaInv users) (op : DirOp) :
    QuotaInv (op.apply users) := by
  intro a ha
  cases op with
  | create u p =>
    simp only [DirOp.apply, user_create] at ha
    split at ha
    · exact h a ha
    · rcases List.mem_cons.1 ha with h1 | h1
      · subst h1; simp [files_total]
      · exact h a h1
  | add u f s =>
    simp only [DirOp.apply, user_add_file] at ha
    rcases mem_update_found ha with h1 | ⟨v, hv, h1⟩
    · exact h a h1
    · subst h1
      have := h v (user_find_locked_some hv).1
      simp only [this, size_add_mod, files_total, List.map_cons, List.sum_cons]
      rw [Nat.add_comm]
  | remove u f =>
    simp only [DirOp.apply, user_remove_file] at ha
    split at ha
    · exact h a ha
    · rename_i v hv
      split at ha
      · exact h a ha
      · rename_i sz rest hrm
        rcases mem_update_found ha with h1 | ⟨v1, hv1, h1⟩
        · exact h a h1
        · subst h1
          rw [hv] at hv1
          simp only [Option.some.injEq] at hv1
          subst hv1
          have h2 := h v (user_find_locked_some hv).1
          have h3 := remove_first_total hrm
          simp only [h2, h3, size_sub_mod]

theorem quotaInv_run_ops (ops : List DirOp) {users : Users} (h : QuotaInv users) :
    QuotaInv (run_ops users ops) := by
  induction ops generalizing users with
  | nil => exact h
  | cons op rest ih => exact ih (quotaInv_apply h op)

/-- C1: after every sequence of `user_create`, `user_add_file` and
`user_remove_file` calls from the empty directory (adding a name already
present included), every account's `used` equals the sum of the sizes of its
file records modulo `2 ^ 64`. -/
theorem used_eq_sum_of_sizes (ops : List DirOp) :
    ∀ a ∈ run_ops [] ops, a.used = (a.files.map FileNode.size).sum % 2 ^ 64 :=
  quotaInv_run_ops ops (fun _ h => by simp at h)

/-- C1 on the sample calls: the account `u` they leave has `used = 8 = 3 + 5`. -/
theorem used_eq_sum_of_sizes_witness :
    sample_account ∈ run_ops [] sample_dir_ops ∧
    sample_account.used = (sample_account.files.map FileNode.size).sum % 2 ^ 64 :=
  ⟨by decide, used_eq_sum_of_sizes sample_dir_ops sample_account (by decide)⟩

/-! ## Account creation and credentials -/

theorem strncpy_of_le {s : CStr} {n : Nat} (h : s.length ≤ n) : strncpy s n = s := by
  simp [strncpy, List.take_of_length_le h]

/-- The locked section of `user_create` for a username and a password of at
most 63 bytes. -/
theorem user_create_locked (users : Users) (username password : CStr)
    (hu : username.length ≤ 63) (hp : password.length ≤ 63) :
    ((∃ a ∈ users, a.username = username) →
      user_create users username password = (-1, users)) ∧
    ((¬ ∃ a ∈ users, a.username = username) →
      user_create users username password =
        (0, { username := username, password := password, used := 0, files := [] } ::
          users)) := by
  have hfind : (user_find_locked users username).isSome ↔
      ∃ a ∈ users, a.username = username := by
    cases h : user_find_locked users username with
    | none =>
      have := user_find_locked_none.1 h
      simp only [Option.isSome_none, Bool.false_eq_true, false_iff, not_exists, not_and]
      exact this
    | some u => exact ⟨fun _ => ⟨u, user_find_locked_some h⟩, fun _ => rfl⟩
  unfold user_create
  constructor
  · intro h
    rw [if_pos (hfind.2 h)]
  · intro h
    rw [if_neg (fun hx => h (hfind.1 hx))]
    simp only [USERNAME_MAX, PASS_MAX, strncpy_of_le hu, strncpy_of_le hp]

/-- C7 (as stated, refuted): with a username of 64 bytes `user_create` stores
only the first 63, so the new account does not carry that username and a
second `user_create` with the same username succeeds again. -/
theorem user_create_long_username_counterexample :
    user_create_call sample_empty_world (List.replicate 64 97) [112] =
      some (0, [{ username := List.replicate 63 97, password := [112], used := 0,
                  files := [] }]) ∧
    user_create_call
        { sample_empty_world with
          users := [{ username := List.replicate 63 97, password := [112], used := 0,
                      files := [] }] }
        (List.replicate 64 97) [112] =
      some (0, [{ username := List.replicate 63 97, password := [112], used := 0,
                  files := [] },
                { username := List.replicate 63 97, password := [112], used := 0,
                  files := [] }]) := by
  decide

/-- C7 (amended): for a username and a password of at most 63 bytes,
`user_create` fails (returns -1, directory unchanged) exactly when the
directory already holds an account with that username.  Otherwise, when
`ensure_dir` returns for `storage` and for `storage/<username>`, the call
returns 0 and the directory is the old one with one new account in front,
carrying that username and password, `used = 0` and no files; and whenever
the call returns, it returns one of these two results. -/
theorem user_create_spec (w : World) (username password : CStr)
    (hu : username.length ≤ 63) (hp : password.length ≤ 63) :
    ((∃ us, user_create_call w username password = some (-1, us)) ↔
      ∃ a ∈ w.users, a.username = username) ∧
    (∀ us, user_create_call w username password = some (-1, us) → us = w.users) ∧
    (∀ r us, user_create_call w username password = some (r, us) → r ≠ -1 →
      r = 0 ∧
      us = { username := username, password := password, used := 0, files := [] } ::
        w.users) ∧
    ((¬ ∃ a ∈ w.users, a.username = username) →
      ensure_dir w STORAGE_DIR = true →
      ensure_dir w (snprintf 512 (STORAGE_DIR ++ bytes "/" ++ username)) = true →
      user_create_call w username password =
        some (0, { username := username, password := password, used := 0, files := [] } ::
          w.users)) := by
  obtain ⟨h1, h2⟩ := user_create_locked w.users username password hu hp
  by_cases hex : ∃ a ∈ w.users, a.username = username
  · have hcall : user_create_call w username password = some (-1, w.users) := by
      unfold user_create_call
      rw [h1 hex]
      rfl
    rw [hcall]
    refine ⟨⟨fun _ => hex, fun _ => ⟨_, rfl⟩⟩, ?_, ?_, fun h => absurd hex h⟩
    · intro us h
      exact (Prod.mk.inj (Option.some.inj h)).2.symm
    · intro r us h hr
      exact absurd (Prod.mk.inj (Option.some.inj h)).1.symm hr
  · have hcall : user_create_call w username password =
        if ensure_dir w STORAGE_DIR &&
            ensure_dir w (snprintf 512 (STORAGE_DIR ++ bytes "/" ++ username)) then
          some (0, { username := username, password := password, used := 0, files := [] } ::
            w.users)
        else none := by
      unfold user_create_call
      rw [h2 hex]
      rfl
    rw [hcall]
    refine ⟨⟨fun ⟨us, h⟩ => ?_, fun h => absurd h hex⟩, ?_, ?_, ?_⟩
    · split at h
      · exact absurd (Prod.mk.inj (Option.some.inj h)).1 (by decide)
      · exact absurd h (by simp)
    · intro us h
      split at h
      · exact absurd (Prod.mk.inj (Option.some.inj h)).1 (by decide)
      · exact absurd h (by simp)
    · intro r us h _
      split at h
      · exact ⟨(Prod.mk.inj (Option.some.inj h)).1.symm,
          (Prod.mk.inj (Option.some.inj h)).2.symm⟩
      · exact absurd h (by simp)
    · intro _ e1 e2
      rw [e1, e2]
      rfl

/-- C7 (amended) on the empty directory with username `a` and password `p`. -/
theorem user_create_spec_witness :
    user_create_call sample_empty_world [97] [112] =
      some (0, [{ username := [97], password := [112], used := 0, files := [] }]) :=
  (user_create_spec sample_empty_world [97] [112] (by decide) (by decide)).2.2.2
    (by decide) (by decide) (by decide)

theorem user_find_locked_update_found {f : User → User} (hf : ∀ x, (f x).username = x.username)
    (users : Users) (v u : CStr) :
    user_find_locked (update_found f users v) u =
      (user_find_locked users u).map (fun a => if u = v then f a else a) := by
  induction users with
  | nil => simp [update_found, user_find_locked]
  | cons w rest ih =>
    simp only [update_found]
    by_cases hw : w.username = v
    · simp only [hw, if_true, user_find_locked, hf]
      by_cases hvu : v = u
      · simp [hvu]
      · have huv : ¬ u = v := fun h => hvu h.symm
        simp only [hvu, if_false, huv]
        cases user_find_locked rest u <;> simp
    · simp only [hw, if_false, user_find_locked]
      by_cases hwu : w.username = u
      · have huv : ¬ u = v := fun h => hw (hwu.trans h)
        simp [hwu, huv]
      · simp [hwu, ih]

theorem password_kept_update (f : User → User) (users : Users) (v u p : CStr)
    (hf : ∀ x, (f x).username = x.username) (hg : ∀ x, (f x).password = x.password)
    (h : ∃ a, user_find_locked users u = some a ∧ a.password = p) :
    ∃ a, user_find_locked (update_found f users v) u = some a ∧ a.password = p := by
  obtain ⟨a, ha, hpw⟩ := h
  rw [user_find_locked_update_found hf, ha]
  by_cases huv : u = v
  · exact ⟨f a, by simp only [huv, Option.map_some', if_true], (hg a).trans hpw⟩
  · exact ⟨a, by simp [huv], hpw⟩

/-- The account found for `u` keeps password `p` under every directory call
whose username fits the field. -/
theorem password_kept_apply {users : Users} {u p : CStr}
    (h : ∃ a, user_find_locked users u = some a ∧ a.password = p) (op : DirOp)
    (hop : op.username_fits = true) :
    ∃ a, user_find_locked (op.apply users) u = some a ∧ a.password = p := by
  obtain ⟨a, ha, hpw⟩ := h
  cases op with
  | create v pw =>
    simp only [DirOp.username_fits, USERNAME_MAX, decide_eq_true_eq] at hop
    simp only [DirOp.apply, user_create]
    split
    · exact ⟨a, ha, hpw⟩
    · rename_i hv
      have hvu : v ≠ u := by
        intro hvu
        subst hvu
        simp [ha] at hv
      refine ⟨a, ?_, hpw⟩
      simp only [user_find_locked, USERNAME_MAX, strncpy_of_le (Nat.le_of_lt_succ hop), hvu,
        if_false, ha]
  | add v f s =>
    simp only [DirOp.apply, user_add_file]
    exact password_kept_update _ users v u p (fun _ => rfl) (fun _ => rfl) ⟨a, ha, hpw⟩
  | remove v f =>
    simp only [DirOp.apply, user_remove_file]
    split
    · exact ⟨a, ha, hpw⟩
    · split
      · exact ⟨a, ha, hpw⟩
      · exact password_kept_update _ users v u p (fun _ => rfl) (fun _ => rfl) ⟨a, ha, hpw⟩

theorem password_kept_run_ops {u p : CStr} (ops : List DirOp) {users : Users}
    (h : ∃ a, user_find_locked users u = some a ∧ a.password = p)
    (hops : ∀ op ∈ ops, op.username_fits = true) :
    ∃ a, user_find_locked (run_ops users ops) u = some a ∧ a.password = p := by
  induction ops generalizing users with
  | nil => exact h
  | cons op rest ih =>
    exact ih (password_kept_apply h op (hops op (List.mem_cons_self _ _)))
      (fun o ho => hops o (List.mem_cons_of_mem _ ho))

/-- C8 (as stated, refuted): with a password of 64 bytes `user_create` stores
only the first 63, so `user_check_password` rejects the very password the
account was created with. -/
theorem user_check_password_long_counterexample :
    (user_create [] [97] (List.replicate 64 112)).1 = 0 ∧
    user_check_password (user_create [] [97] (List.replicate 64 112)).2 [97]
      (List.replicate 64 112) = -1 := by
  decide

/-- C8 (amended): for a username and a password of at most 63 bytes, once
`user_create u p` has succeeded, and after any further directory calls whose
usernames fit the field, `user_check_password u q` returns 0 exactly when
`q = p`; `user_check_password` returns -1 for every username that no account
carries.  The function only reads the directory. -/
theorem user_check_password_spec (users : Users) (u p q : CStr)
    (hu : u.length ≤ 63) (hp : p.length ≤ 63)
    (hok : (user_create users u p).1 = 0) (ops : List DirOp)
    (hops : ∀ op ∈ ops, op.username_fits = true) :
    (user_check_password (run_ops (user_create users u p).2 ops) u q = 0 ↔ q = p) ∧
    (∀ (dir : Users) (v : CStr), (∀ a ∈ dir, a.username ≠ v) →
      user_check_password dir v q = -1) := by
  constructor
  · have h0 : ∃ a, user_find_locked (user_create users u p).2 u = some a ∧ a.password = p := by
      unfold user_create at hok ⊢
      split at hok
      · simp at hok
      · rename_i hf
        simp [hf, user_find_locked, USERNAME_MAX, PASS_MAX, strncpy_of_le hu, strncpy_of_le hp]
    obtain ⟨a, ha, hpw⟩ := password_kept_run_ops ops h0 hops
    simp only [user_check_password, ha, hpw]
    constructor
    · intro h
      by_contra hne
      have : ¬ p = q := fun h' => hne h'.symm
      simp [this] at h
    · intro h; simp [h]
  · intro dir v hv
    simp [user_check_password, user_find_locked_none.2 hv]

/-- C8 (amended) on account `a` with password `p`, after a further `create`
and `add`. -/
theorem user_check_password_spec_witness :
    (user_check_password
        (run_ops (user_create [] [97] [112]).2 [DirOp.create [98] [113], DirOp.add [97] [102] 5])
        [97] [112] = 0 ↔ ([112] : CStr) = [112]) ∧
    (∀ (dir : Users) (v : CStr), (∀ a ∈ dir, a.username ≠ v) →
      user_check_password dir v [112] = -1) :=
  user_check_password_spec [] [97] [112] [112] (by decide) (by decide) (by decide)
    [DirOp.create [98] [113], DirOp.add [97] [102] 5] (by decide)

/-! ## File records -/

/-- C9 (evaluation at the failing input): adding the name `a` twice to the
account `u` leaves two records named `a` in its file list; the second call
does not replace the first record. -/
theorem user_add_file_keeps_duplicate :
    (user_add_file (user_add_file (user_create [] (bytes "u") (bytes "p")).2
        (bytes "u") (bytes "a") 5) (bytes "u") (bytes "a") 7).map User.files =
      [[{ name := bytes "a", size := 7 }, { name := bytes "a", size := 5 }]] := by
  decide

/-! ## Upload over quota -/

theorem fs_unlink_other (fs : FS) (path p : CStr) (h : p ≠ path) :
    (fs_unlink fs path).2 p = fs p := by
  unfold fs_unlink
  split <;> simp [h]

theorem fs_unlink_self (fs : FS) (path : CStr) : (fs_unlink fs path).2 path = none := by
  unfold fs_unlink
  split
  · assumption
  · simp

/-- C2 (as stated, refuted): account `u` has `used = 1` after a 1-byte upload,
and the next upload task has `filesize = 2 ^ 64 - 1`, so `used + filesize`
is far above `MAX_QUOTA`.  The `size_t` sum that `handle_upload` compares
wraps to 0: the task succeeds, the account gains the record `b`, `used`
becomes 0 and the file `storage/u/b` is created. -/
theorem handle_upload_wrapped_sum_counterexample :
    (handle_upload sample_upload_task sample_fresh_world).2.users.map User.used = [1] ∧
    1 + sample_huge_upload.filesize > MAX_QUOTA ∧
    (handle_upload sample_huge_upload
      (handle_upload sample_upload_task sample_fresh_world).2).1.status = 0 ∧
    (handle_upload sample_huge_upload
      (handle_upload sample_upload_task sample_fresh_world).2).2.users.map
        (fun a => (a.used, a.files.map FileNode.name)) = [(0, [bytes "b", bytes "a"])] ∧
    (handle_upload sample_huge_upload
      (handle_upload sample_upload_task sample_fresh_world).2).2.fs
        (storage_path (bytes "u") (bytes "b")) = some (bytes "goodbye") := by
  decide

/-- C2 (amended): when the account of the task exists and the `size_t` sum
`u.used + filesize` that `handle_upload` computes, which is the sum modulo
`2 ^ 64`, exceeds `MAX_QUOTA` (it is the plain sum whenever that is below
`2 ^ 64`), the task fails with status -1 and message "Quota exceeded", the
user directory (every file list and `used` counter) is unchanged, every path
other than `tmp_path` is unchanged, and `tmp_path` no longer exists. -/
theorem handle_upload_quota_exceeded (t : Task) (w : World) (u : User)
    (hu : user_find_locked w.users t.username = some u)
    (hq : (u.used + t.filesize) % 2 ^ 64 > MAX_QUOTA) :
    (handle_upload t w).1.status = -1 ∧
    (handle_upload t w).1.errmsg = bytes "Quota exceeded" ∧
    (handle_upload t w).2.users = w.users ∧
    (∀ p, p ≠ t.tmp_path → (handle_upload t w).2.fs p = w.fs p) ∧
    (handle_upload t w).2.fs t.tmp_path = none := by
  have hq' : size_add u.used t.filesize > MAX_QUOTA := hq
  have hm : snprintf 256 (bytes "Quota exceeded") = bytes "Quota exceeded" := by decide
  unfold handle_upload
  rw [hu]
  simp only [hq', if_true, hm]
  exact ⟨trivial, trivial, trivial, fun p hp => fs_unlink_other _ _ _ hp, fs_unlink_self _ _⟩

/-- C2 (amended) on a one-byte upload to an account that has used all of its
quota. -/
theorem handle_upload_quota_exceeded_witness :
    (handle_upload sample_upload_task sample_full_world).1.status = -1 ∧
    (handle_upload sample_upload_task sample_full_world).1.errmsg = bytes "Quota exceeded" ∧
    (handle_upload sample_upload_task sample_full_world).2.users = sample_full_world.users ∧
    (∀ p, p ≠ sample_upload_task.tmp_path →
      (handle_upload sample_upload_task sample_full_world).2.fs p = sample_full_world.fs p) ∧
    (handle_upload sample_upload_task sample_full_world).2.fs sample_upload_task.tmp_path = none :=
  handle_upload_quota_exceeded sample_upload_task sample_full_world
    { username := bytes "u", password := bytes "p", used := MAX_QUOTA,
      files := [{ name := bytes "big", size := MAX_QUOTA }] }
    (by decide) (by decide)

/-! ## Delete -/

/-- C6: when the path `storage/<username>/<filename>` of the task does not
exist, `handle_delete` fails with status -1 and message "File not found" and
leaves the whole world (file system, every file list, every `used`
counter) unchanged. -/
theorem handle_delete_missing (t : Task) (w : World)
    (h : w.fs (storage_path t.username t.filename) = none) :
    (handle_delete t w).1.status = -1 ∧
    (handle_delete t w).1.errmsg = bytes "File not found" ∧
    (handle_delete t w).2 = w := by
  have hm : strncpy (bytes "File not found") 255 = bytes "File not found" := by decide
  simp [handle_delete, h, hm]

/-- C6 on a delete of `a` while `storage/u/a` does not exist. -/
theorem handle_delete_missing_witness :
    (handle_delete sample_delete_task sample_full_world).1.status = -1 ∧
    (handle_delete sample_delete_task sample_full_world).1.errmsg = bytes "File not found" ∧
    (handle_delete sample_delete_task sample_full_world).2 = sample_full_world :=
  handle_delete_missing sample_delete_task sample_full_world (by decide)

/-- C5 (evaluation at the failing input): after account `u` has uploaded the
file `a` twice (5 bytes, then 7 bytes), the path `storage/u/a` exists and
`used` is 12; `handle_delete` for `a` succeeds and `used` drops by 7, but the
report of `user_list_files` still has the line `a (5 bytes)`, and the
path no longer exists, so that record can never be deleted. -/
theorem handle_delete_leaves_duplicate_listed :
    (sample_twice_uploaded.fs (storage_path (bytes "u") (bytes "a"))).isSome = true ∧
    sample_twice_uploaded.users.map User.used = [12] ∧
    (handle_delete sample_delete_task sample_twice_uploaded).1.status = 0 ∧
    (handle_delete sample_delete_task sample_twice_uploaded).2.users.map User.used = [5] ∧
    (user_list_files (handle_delete sample_delete_task sample_twice_uploaded).2.users
        (bytes "u")).map ListBuf.text =
      some (bytes "Storage used: 5 bytes\na (5 bytes)\n") ∧
    (handle_delete sample_delete_task sample_twice_uploaded).2.fs
      (storage_path (bytes "u") (bytes "a")) = none := by
  decide

/-! ## Sentinel scan -/

/-- C4 (evaluation at the failing input): the stream `abEOF` delivered as the
two chunks `abE` and `OF`.  Neither chunk holds the sentinel, so the UPLOAD
receive loop does not stop at it: it writes all 5 bytes, `total_received` is
5 and `eof_found` stays 0; `receive_file` of the client does the same. -/
theorem upload_recv_split_sentinel :
    (upload_recv [bytes "abE", bytes "OF"]).written = bytes "abEOF" ∧
    (upload_recv [bytes "abE", bytes "OF"]).total_received = 5 ∧
    (upload_recv [bytes "abE", bytes "OF"]).eof_found = false ∧
    (receive_file [bytes "abE", bytes "OF"]).1 = bytes "abEOF" ∧
    (receive_file [bytes "abE", bytes "OF"]).2.2.1 = false := by
  decide

/-! ## Command parsing -/

theorem scan_str_length {width : Nat} {s tok r : CStr}
    (h : scan_str width s = some (tok, r)) : tok.length ≤ width := by
  unfold scan_str at h
  simp only at h
  split at h
  · simp at h
  · simp only [Option.some.injEq, Prod.mk.injEq] at h
    rw [← h.1]
    simp [List.length_take]

theorem sscanf_user_pass_length {s user pass : CStr}
    (h : sscanf_user_pass s = some (user, pass)) : user.length ≤ 63 ∧ pass.length ≤ 63 := by
  unfold sscanf_user_pass at h
  split at h
  · simp at h
  · rename_i u r h1
    split at h
    · simp at h
    · rename_i p r2 h2
      simp only [Option.some.injEq, Prod.mk.injEq] at h
      rw [← h.1, ← h.2]
      exact ⟨scan_str_length h1, scan_str_length h2⟩

theorem takeWhile_token (p : Byte → Bool) (tok rest : List Byte)
    (htok : ∀ b ∈ tok, p b = true) (hrest : rest = [] ∨ ∃ b tl, rest = b :: tl ∧ p b = false) :
    (tok ++ rest).takeWhile p = tok := by
  induction tok with
  | nil =>
    rcases hrest with h | ⟨b, tl, h, hb⟩
    · simp [h]
    · simp [h, List.takeWhile, hb]
  | cons a tl ih =>
    have ha := htok a (List.mem_cons_self _ _)
    rw [List.cons_append, List.takeWhile_cons_of_pos ha,
      ih (fun b hb => htok b (List.mem_cons_of_mem _ hb))]

/-- A token followed by nothing or by white space is what `%<width>s` reads. -/
theorem scan_str_token {width : Nat} {tok : CStr} (rest : CStr) (h : is_token width tok)
    (hrest : rest = [] ∨ ∃ b tl, rest = b :: tl ∧ isspace b = true) :
    scan_str width (tok ++ rest) = some (tok, rest) := by
  obtain ⟨hne, hlen, hb⟩ := h
  obtain ⟨a, tl, rfl⟩ := List.exists_cons_of_ne_nil hne
  have ha := (hb a (List.mem_cons_self _ _)).2
  have hdrop : ((a :: tl) ++ rest).dropWhile isspace = (a :: tl) ++ rest := by
    simp [List.dropWhile, ha]
  have htake : (((a :: tl) ++ rest).takeWhile (fun b => !isspace b)) = a :: tl := by
    apply takeWhile_token
    · intro b hb'
      simp [(hb b hb').2]
    · rcases hrest with h | ⟨b, tl', h, hb'⟩
      · exact Or.inl h
      · exact Or.inr ⟨b, tl', h, by simp [hb']⟩
  unfold scan_str
  simp only [hdrop, htake, List.take_of_length_le hlen]
  simp

theorem isspace_false {b : Byte} (h : isspace b = false) : b ≠ 10 ∧ b ≠ 13 ∧ b ≠ 32 := by
  refine ⟨?_, ?_, ?_⟩ <;> (rintro rfl; exact absurd h (by decide))

theorem strip_eol_line (pre tok : List Byte) (hne : tok ≠ [])
    (htok : ∀ b ∈ tok, isspace b = false) :
    strip_eol (pre ++ tok ++ [10]) = pre ++ tok := by
  have hr : tok.reverse ≠ [] := by simpa using hne
  obtain ⟨z, t, hz⟩ := List.exists_cons_of_ne_nil hr
  have hzmem : z ∈ tok := by
    have : z ∈ tok.reverse := by rw [hz]; exact List.mem_cons_self _ _
    simpa using this
  obtain ⟨h10, h13, _⟩ := isspace_false (htok z hzmem)
  have htok' : tok = t.reverse ++ [z] := by
    have := congrArg List.reverse hz
    simpa using this
  unfold strip_eol
  simp [htok', List.dropWhile, h10, h13]

theorem cstr_of_no_nul {x : List Byte} (h : ∀ b ∈ x, b ≠ 0) : cstr x = x := by
  unfold cstr
  rw [List.takeWhile_eq_self_iff]
  intro b hb
  simpa using h b hb

theorem scan_str_skip_space (width : Nat) (s : CStr) :
    scan_str width (32 :: s) = scan_str width s := by
  simp [scan_str, List.dropWhile, isspace]

/-- The line `LOGIN <user> <pass>` (or `SIGNUP`, with its own prefix) of the
wire grammar is read back as the pair `(user, pass)`. -/
theorem sscanf_user_pass_tokens {user pass : CStr} (hu : is_token 63 user)
    (hp : is_token 63 pass) :
    sscanf_user_pass (user ++ 32 :: pass) = some (user, pass) := by
  unfold sscanf_user_pass
  rw [scan_str_token (32 :: pass) hu (Or.inr ⟨32, pass, rfl, by decide⟩)]
  simp only [scan_str_skip_space]
  have := scan_str_token [] hp (Or.inl rfl)
  rw [List.append_nil] at this
  rw [this]

/-! ## The session before login -/

theorem unauth_command_spec (s : Session) (w : World) (tr : Transport) (buf : CStr)
    (hs : s.logged_in = false) :
    ((unauth_command s w tr buf).sess.logged_in = true ↔
      ∃ user pass, buf.take 6 = bytes "LOGIN " ∧
        sscanf_user_pass (buf.drop 6) = some (user, pass) ∧
        user_check_password w.users user pass = 0) ∧
    (∀ user pass, buf.take 6 = bytes "LOGIN " →
      sscanf_user_pass (buf.drop 6) = some (user, pass) →
      user_check_password w.users user pass = 0 →
      (unauth_command s w tr buf).sess.current_user = user) ∧
    ((unauth_command s w tr buf).sess.logged_in = false →
      (unauth_command s w tr buf).sess = s) ∧
    (unauth_command s w tr buf).tasks = [] := by
  unfold unauth_command
  by_cases h7 : buf.take 7 = bytes "SIGNUP "
  · have h6 : buf.take 6 ≠ bytes "LOGIN " := by
      intro h
      have h' : (buf.take 7).take 6 = bytes "SIGNUP" := by rw [h7]; decide
      rw [List.take_take] at h'
      have : bytes "LOGIN " = bytes "SIGNUP" := by
        rw [← h, ← h']; rfl
      exact absurd this (by decide)
    simp only [h7, if_true]
    split
    · simp [h6, hs]
    · split
      · simp [h6, hs]
      · split <;> simp [h6, hs]
  · simp only [h7, if_false]
    by_cases h6 : buf.take 6 = bytes "LOGIN "
    · simp only [h6, if_true, true_and, forall_true_left]
      cases hparse : sscanf_user_pass (buf.drop 6) with
      | none => simp [hs]
      | some up =>
        obtain ⟨user, pass⟩ := up
        have hlen := (sscanf_user_pass_length hparse).1
        simp only [Option.some.injEq, Prod.mk.injEq]
        by_cases hc : user_check_password w.users user pass = 0
        · rw [if_pos hc]
          simp only [USERNAME_MAX, strncpy_of_le hlen]
          refine ⟨⟨fun _ => ⟨user, pass, ⟨rfl, rfl⟩, hc⟩, fun _ => trivial⟩, ?_, ?_, trivial⟩
          · rintro u p ⟨h1, _⟩ _
            exact h1
          · intro h
            exact absurd h (by simp)
        · rw [if_neg hc]
          refine ⟨⟨fun h => ?_, ?_⟩, ?_, fun _ => rfl, rfl⟩
          · rw [hs] at h
            exact absurd h (by simp)
          · rintro ⟨u, p, ⟨h1, h2⟩, h⟩
            subst h1 h2
            exact absurd h hc
          · rintro u p ⟨h1, h2⟩ h
            subst h1 h2
            exact absurd h hc
    · simp [h6, hs]

theorem login_line_buf {user pass : CStr} (hu : is_token 63 user) (hp : is_token 63 pass) :
    cstr (strip_eol (bytes "LOGIN " ++ (user ++ 32 :: pass) ++ [10])) =
      bytes "LOGIN " ++ (user ++ 32 :: pass) := by
  have h1 : bytes "LOGIN " ++ (user ++ 32 :: pass) ++ [10] =
      (bytes "LOGIN " ++ user ++ [32]) ++ pass ++ [10] := by simp
  have h2 : (bytes "LOGIN " ++ user ++ [32]) ++ pass = bytes "LOGIN " ++ (user ++ 32 :: pass) := by
    simp
  rw [h1, strip_eol_line _ pass hp.1 (fun b hb => (hp.2.2 b hb).2), h2]
  apply cstr_of_no_nul
  intro b hb
  rcases List.mem_append.1 hb with h | h
  · intro h0
    subst h0
    exact absurd h (by decide)
  · rcases List.mem_append.1 h with h | h
    · exact (hu.2.2 b h).1
    · rcases List.mem_cons.1 h with h | h
      · rw [h]; decide
      · exact (hp.2.2 b h).1

/-- C10: for a line read while the session is not logged in, `logged_in`
becomes 1 exactly when the line has the prefix `LOGIN `, its arguments are
read as `(user, pass)` by the `%63s %63s` conversions and
`user_check_password user pass` returns 0, and then `current_user` is
`user`; in every other case (SIGNUP lines and storage commands included) the
session variables are unchanged; in no case is a task created.  In
particular a line `LOGIN <user> <pass>` of the wire grammar logs in exactly
when `user_check_password user pass` returns 0. -/
theorem unauthenticated_line (env : Env) (s : Session) (w : World) (tr : Transport)
    (raw : List Byte) (hs : s.logged_in = false) :
    ((service_line env s w tr raw).sess.logged_in = true ↔
      ∃ user pass, (cstr (strip_eol raw)).take 6 = bytes "LOGIN " ∧
        sscanf_user_pass ((cstr (strip_eol raw)).drop 6) = some (user, pass) ∧
        user_check_password w.users user pass = 0) ∧
    (∀ user pass, (cstr (strip_eol raw)).take 6 = bytes "LOGIN " →
      sscanf_user_pass ((cstr (strip_eol raw)).drop 6) = some (user, pass) →
      user_check_password w.users user pass = 0 →
      (service_line env s w tr raw).sess.current_user = user) ∧
    ((service_line env s w tr raw).sess.logged_in = false →
      (service_line env s w tr raw).sess = s) ∧
    (service_line env s w tr raw).tasks = [] ∧
    (∀ user pass, is_token 63 user → is_token 63 pass →
      raw = bytes "LOGIN " ++ (user ++ 32 :: pass) ++ [10] →
      ((service_line env s w tr raw).sess.logged_in = true ↔
        user_check_password w.users user pass = 0)) := by
  have key : ((service_line env s w tr raw).sess.logged_in = true ↔
      ∃ user pass, (cstr (strip_eol raw)).take 6 = bytes "LOGIN " ∧
        sscanf_user_pass ((cstr (strip_eol raw)).drop 6) = some (user, pass) ∧
        user_check_password w.users user pass = 0) ∧
    (∀ user pass, (cstr (strip_eol raw)).take 6 = bytes "LOGIN " →
      sscanf_user_pass ((cstr (strip_eol raw)).drop 6) = some (user, pass) →
      user_check_password w.users user pass = 0 →
      (service_line env s w tr raw).sess.current_user = user) ∧
    ((service_line env s w tr raw).sess.logged_in = false →
      (service_line env s w tr raw).sess = s) ∧
    (service_line env s w tr raw).tasks = [] := by
    unfold service_line
    by_cases h0 : (strip_eol raw).length = 0
    · have hnil : strip_eol raw = [] := List.length_eq_zero.1 h0
      have hL : ¬ (([] : List Byte) = bytes "LOGIN ") := by decide
      simp [hnil, cstr, hs, hL]
    · simp only [h0, if_false, hs, Bool.not_false, if_true]
      exact unauth_command_spec s w tr _ hs
  refine ⟨key.1, key.2.1, key.2.2.1, key.2.2.2, ?_⟩
  intro user pass hu hp hraw
  rw [key.1, hraw, login_line_buf hu hp]
  have h6 : (bytes "LOGIN " ++ (user ++ 32 :: pass)).take 6 = bytes "LOGIN " := by
    rw [List.take_left' (by decide)]
  have hd : (bytes "LOGIN " ++ (user ++ 32 :: pass)).drop 6 = user ++ 32 :: pass := by
    rw [List.drop_left' (by decide)]
  rw [h6, hd, sscanf_user_pass_tokens hu hp]
  constructor
  · rintro ⟨u, p, _, h, hc⟩
    simp only [Option.some.injEq, Prod.mk.injEq] at h
    rw [h.1, h.2]
    exact hc
  · intro hc
    exact ⟨user, pass, rfl, rfl, hc⟩

/-- C10 on the line `LOGIN hello hello1234` with the accounts of `main`. -/
theorem unauthenticated_line_witness :
    Session.start.logged_in = false ∧
    (service_line ⟨0, true, false⟩ Session.start sample_main_world []
        (bytes "LOGIN hello hello1234\n")).sess.logged_in = true ∧
    (service_line ⟨0, true, false⟩ Session.start sample_main_world []
        (bytes "LOGIN hello hello1234\n")).sess.current_user = bytes "hello" :=
  ⟨rfl,
   (unauthenticated_line ⟨0, true, false⟩ Session.start sample_main_world []
      (bytes "LOGIN hello hello1234\n") rfl).1.2
      ⟨bytes "hello", bytes "hello1234", by decide, by decide, by decide⟩,
   (unauthenticated_line ⟨0, true, false⟩ Session.start sample_main_world []
      (bytes "LOGIN hello hello1234\n") rfl).2.1 (bytes "hello") (bytes "hello1234")
      (by decide) (by decide) (by decide)⟩

/-! ## The receive loop on a well-framed upload -/

theorem find_range_first (p : Nat → Bool) (n i : Nat) (hi : i < n) (hp : p i = true)
    (hlt : ∀ j, j < i → p j = false) : (List.range n).find? p = some i := by
  induction n with
  | zero => omega
  | succ n ih =>
    rw [List.range_succ, List.find?_append]
    by_cases h : i < n
    · simp [ih h]
    · have hin : i = n := by omega
      subst hin
      have hnone : (List.range i).find? p = none := by
        rw [List.find?_eq_none]
        intro x hx
        simp [hlt x (List.mem_range.1 hx)]
      simp [hnone, hp]

theorem infix_of_window {buf : List Byte} {i : Nat} (h : (buf.drop i).take 3 = EOF_MARK) :
    EOF_MARK <:+: buf := by
  have hpre : EOF_MARK <+: buf.drop i := by
    rw [List.prefix_iff_eq_take]
    exact h.symm
  exact hpre.isInfix.trans (List.drop_suffix i buf).isInfix

/-- A chunk without the sentinel is scanned to the end without a match. -/
theorem find_eof_none {buf : List Byte} (h : ¬ EOF_MARK <:+: buf) : find_eof buf = none := by
  unfold find_eof
  split
  · rw [List.find?_eq_none]
    intro i _ hi
    exact h (infix_of_window (of_decide_eq_true hi))
  · rfl

/-- In a chunk that is sentinel-free data followed by the sentinel, the scan
stops exactly at the end of the data. -/
theorem find_eof_at_end {d : List Byte} (h : ¬ EOF_MARK <:+: d) :
    find_eof (d ++ EOF_MARK) = some d.length := by
  have hE : EOF_MARK = [69, 79, 70] := by decide
  unfold find_eof
  have hlen : 3 ≤ (d ++ EOF_MARK).length := by simp [hE]
  rw [if_pos hlen]
  apply find_range_first
  · simp [hE]
  · simp [hE]
  · intro j hj
    rw [decide_eq_false_iff_not]
    intro hw
    rw [List.drop_append_of_le_length (Nat.le_of_lt hj)] at hw
    have hd : (d.drop j).length = d.length - j := List.length_drop j d
    have hsuf : ¬ EOF_MARK <:+: d.drop j :=
      fun hx => h (hx.trans (List.drop_suffix j d).isInfix)
    generalize d.drop j = e at hw hd hsuf
    match e, hd, hw, hsuf with
    | [], hd, _, _ => simp at hd; omega
    | [x], _, hw, _ => simp [hE] at hw
    | [x, y], _, hw, _ => simp [hE] at hw
    | x :: y :: z :: rest, _, hw, hsuf =>
      apply hsuf
      have : EOF_MARK <+: x :: y :: z :: rest := by
        rw [List.prefix_iff_eq_take, hE]
        simp only [List.cons_append, List.take, hE] at hw
        simp [hw]
      exact this.isInfix

theorem recv_chunk (seg : List Byte) (rest : Transport) (hne : seg ≠ [])
    (hlen : seg.length ≤ 8192) : recv 8192 (seg :: rest) = (seg, rest) := by
  simp [recv, hne, hlen]

theorem size_add_assoc (t a b : Nat) : size_add (size_add t a) b = size_add t (a + b) := by
  simp only [size_add, SIZE_MOD]; omega

/-- The receive loop on data chunks without the sentinel followed by a chunk
that ends with the sentinel: all the data is written, the sentinel is
found and the transport beyond that chunk is left unread. -/
theorem upload_recv_loop_framed (chunks : List (List Byte)) (last : List Byte) (tr : Transport)
    (hchunks : ∀ ch ∈ chunks, ch ≠ [] ∧ ch.length ≤ 8192 ∧ ¬ EOF_MARK <:+: ch)
    (hlast : (last ++ EOF_MARK).length ≤ 8192) (hfree : ¬ EOF_MARK <:+: last)
    (fuel : Nat) (hfuel : chunks.length < fuel) (written : List Byte) (total : Nat) :
    upload_recv_loop fuel (chunks ++ (last ++ EOF_MARK) :: tr) written total =
      ⟨written ++ (chunks.flatten ++ last),
       size_add total (chunks.flatten ++ last).length, true, tr⟩ := by
  induction chunks generalizing fuel written total with
  | nil =>
    obtain ⟨f, rfl⟩ : ∃ f, fuel = f + 1 := ⟨fuel - 1, by simp at hfuel; omega⟩
    have hne : last ++ EOF_MARK ≠ [] := by
      have : EOF_MARK ≠ [] := by decide
      simp [this]
    obtain ⟨b, bs, hb⟩ := List.exists_cons_of_ne_nil hne
    have hr := recv_chunk (last ++ EOF_MARK) tr hne hlast
    simp only [List.nil_append, upload_recv_loop, hr]
    rw [hb]
    simp only []
    rw [← hb, find_eof_at_end hfree]
    simp
  | cons ch rest ih =>
    obtain ⟨f, rfl⟩ : ∃ f, fuel = f + 1 := ⟨fuel - 1, by simp at hfuel; omega⟩
    obtain ⟨hne, hlen, hno⟩ := hchunks ch (List.mem_cons_self _ _)
    obtain ⟨b, bs, hb⟩ := List.exists_cons_of_ne_nil hne
    have hr := recv_chunk ch (rest ++ (last ++ EOF_MARK) :: tr) hne hlen
    simp only [List.cons_append, upload_recv_loop, hr]
    rw [hb]
    simp only []
    rw [← hb, find_eof_none hno]
    simp only []
    rw [ih (fun c hc => hchunks c (List.mem_cons_of_mem _ hc)) f
      (by simp at hfuel; omega)]
    simp [size_add_assoc, Nat.add_assoc]

/-! ## Upload followed by download -/

theorem recv_line_loop_segment (line : List Byte) (rest : Transport)
    (hline : ∀ b ∈ line, b ≠ 10) (room : Nat) (hroom : line.length < room) (acc : List Byte) :
    recv_line_loop room acc ((line ++ [10]) :: rest) = (some (acc ++ line ++ [10]), rest) := by
  induction line generalizing room acc with
  | nil =>
    obtain ⟨r, rfl⟩ : ∃ r, room = r + 1 := ⟨room - 1, by simp at hroom; omega⟩
    simp [recv_line_loop, recv]
  | cons a l ih =>
    obtain ⟨r, rfl⟩ : ∃ r, room = r + 1 := ⟨room - 1, by simp at hroom; omega⟩
    have ha : a ≠ 10 := hline a (List.mem_cons_self _ _)
    have hrecv : recv 1 ((a :: l ++ [10]) :: rest) = ([a], (l ++ [10]) :: rest) := by
      simp [recv]
    simp only [recv_line_loop, hrecv, ha, if_false]
    rw [ih (fun b hb => hline b (List.mem_cons_of_mem _ hb)) r (by simp at hroom; omega)]
    simp

/-- A command line that arrives in a segment of its own is what `recv_line`
returns. -/
theorem recv_line_segment (line : List Byte) (rest : Transport)
    (hline : ∀ b ∈ line, b ≠ 10) (hlen : line.length < 2047) :
    recv_line ((line ++ [10]) :: rest) 2048 = (some (line ++ [10]), rest) := by
  unfold recv_line
  rw [recv_line_loop_segment line rest hline 2047 hlen []]
  simp

theorem send_error_ne_send_ok (msg : CStr) : send_error msg ≠ send_ok := by
  have h1 : send_error msg = 69 :: (bytes "RR " ++ msg ++ bytes "\n").take 510 := by
    unfold send_error snprintf
    have : bytes "ERR " = 69 :: bytes "RR " := by decide
    rw [this]
    rfl
  have h2 : send_ok = [79, 75, 10] := by decide
  rw [h1, h2]
  simp

theorem tmp_name_length (fname : CStr) (now : Nat) : (tmp_name fname now).length ≤ 511 := by
  unfold tmp_name snprintf
  simp [List.length_take]

theorem storage_path_ne_tmp_name (u f n : CStr) (now : Nat) :
    storage_path u f ≠ tmp_name n now := by
  have h1 : STORAGE_DIR = 115 :: bytes "torage" := by decide
  have h2 : TMP_DIR = 116 :: bytes "mp_storage" := by decide
  unfold storage_path tmp_name snprintf
  rw [h1, h2]
  simp

theorem upload_command_ok_stores (env : Env) (s : Session) (w : World) (tr : Transport)
    (buf n data : List Byte) (tot : Nat) (eof : Bool) (rest : Transport)
    (hparse : sscanf_fname (buf.drop 7) = some n)
    (hrecv : upload_recv tr = ⟨data, tot, eof, rest⟩)
    (hcommit :
      w.rename_blocked (tmp_name n env.now)
        (storage_path (strncpy s.current_user 63) (strncpy n 255)) = false ∨
      w.create_blocked (storage_path (strncpy s.current_user 63) (strncpy n 255)) = false)
    (hok : (upload_command env s w tr buf).out = send_ok) :
    (upload_command env s w tr buf).world.fs
        (storage_path (strncpy s.current_user 63) (strncpy n 255)) = some data ∧
    (upload_command env s w tr buf).sess = s ∧
    (upload_command env s w tr buf).tr = rest := by
  have hnil : ([] : List Byte) ≠ send_ok := by decide
  unfold upload_command at hok ⊢
  rw [hparse] at hok ⊢
  cases hopen : env.tmp_open_ok with
  | false =>
    simp only [hopen, Bool.not_false, if_true] at hok
    exact absurd hok (send_error_ne_send_ok _)
  | true =>
  simp only [hopen, Bool.not_true, Bool.false_eq_true, if_false, hrecv] at hok ⊢
  by_cases h0 : tot = 0
  · rw [if_pos h0] at hok
    exact absurd hok (send_error_ne_send_ok _)
  · rw [if_neg h0] at hok ⊢
    cases hsig : env.signal_lost with
    | true =>
      simp only [hsig, if_true] at hok
      exact absurd hok hnil
    | false =>
    simp only [hsig, Bool.false_eq_true, if_false] at hok ⊢
    simp only [run_task, Task.blank, handle_upload, USERNAME_MAX, MAX_FILENAME,
      strncpy_of_le (tmp_name_length n env.now)] at hok ⊢
    cases hu : user_find_locked w.users (strncpy s.current_user (64 - 1)) with
    | none =>
      simp only [hu] at hok
      exact absurd hok (by simpa using send_error_ne_send_ok _)
    | some u =>
      simp only [hu] at hok ⊢
      by_cases hq : size_add u.used tot > MAX_QUOTA
      · simp only [hq, if_true] at hok
        exact absurd hok (by simpa using send_error_ne_send_ok _)
      · simp only [hq, if_false]
        refine ⟨?_, trivial, trivial⟩
        have hne := storage_path_ne_tmp_name (strncpy s.current_user 63) (strncpy n 255) n
          env.now
        cases hrb : w.rename_blocked (tmp_name n env.now)
            (storage_path (strncpy s.current_user 63) (strncpy n 255)) with
        | false => simp [fs_rename, fs_write, hrb]
        | true =>
          have hcb : w.create_blocked
              (storage_path (strncpy s.current_user 63) (strncpy n 255)) = false := by
            rcases hcommit with h | h
            · rw [hrb] at h
              exact absurd h (by decide)
            · exact h
          simp [fs_rename, fs_write, safe_copy_file, fs_unlink, hrb, hcb, hne]

theorem download_command_found (env : Env) (s : Session) (w : World) (tr : Transport)
    (buf n data : List Byte) (hsig : env.signal_lost = false)
    (hparse : sscanf_fname (buf.drop 9) = some n)
    (hfile : w.fs (storage_path (strncpy s.current_user 63) (strncpy n 255)) = some data) :
    (download_command env s w tr buf).out = data ++ EOF_MARK := by
  unfold download_command
  rw [hparse]
  simp only [run_task, Task.blank, handle_download, USERNAME_MAX, MAX_FILENAME, hfile, hsig]
  by_cases hd : data.length > 0
  · simp [hd]
  · have : data = [] := List.length_eq_zero.1 (by omega)
    simp [this]

theorem command_line_buf (cmd n : List Byte) (hcmd : ∀ b ∈ cmd, b ≠ 0) (hn : is_token 255 n) :
    cstr (strip_eol (cmd ++ n ++ [10])) = cmd ++ n := by
  rw [strip_eol_line cmd n hn.1 (fun b hb => (hn.2.2 b hb).2)]
  apply cstr_of_no_nul
  intro b hb
  rcases List.mem_append.1 hb with h | h
  · exact hcmd b h
  · exact (hn.2.2 b h).1

theorem sscanf_fname_token {n : CStr} (hn : is_token 255 n) : sscanf_fname n = some n := by
  have := scan_str_token [] hn (Or.inl rfl)
  rw [List.append_nil] at this
  simp [sscanf_fname, this]

theorem command_line_no_newline (cmd n : List Byte) (hcmd : ∀ b ∈ cmd, b ≠ 10)
    (hn : is_token 255 n) : ∀ b ∈ cmd ++ n, b ≠ 10 := by
  intro b hb
  rcases List.mem_append.1 hb with h | h
  · exact hcmd b h
  · exact (isspace_false (hn.2.2 b h).2).1

theorem pending_framed (chunks : List (List Byte)) (x : List Byte) (tr : Transport)
    (hchunks : ∀ ch ∈ chunks, ch ≠ []) (hx : x ≠ []) :
    chunks.length < pending (chunks ++ x :: tr) := by
  induction chunks with
  | nil =>
    have : 0 < x.length := List.length_pos.2 hx
    simp [pending]
    omega
  | cons ch rest ih =>
    have h1 : 0 < ch.length := List.length_pos.2 (hchunks ch (List.mem_cons_self _ _))
    have h2 := ih (fun c hc => hchunks c (List.mem_cons_of_mem _ hc))
    simp only [pending, List.cons_append, List.map_cons, List.sum_cons, List.length_cons] at h2 ⊢
    omega

theorem service_step_command (env : Env) (s : Session) (w : World) (tr0 tr : Transport)
    (cmd n : List Byte) (hs : s.logged_in = true) (hcmd : ∀ b ∈ cmd, b ≠ 0)
    (hn : is_token 255 n) (hline : recv_line tr0 2048 = (some (cmd ++ n ++ [10]), tr)) :
    service_step env s w tr0 = auth_command env s w tr (cmd ++ n) := by
  have hbuf := command_line_buf cmd n hcmd hn
  have hne : cmd ++ n ≠ [] := by
    have := hn.1
    simp [this]
  unfold service_step
  rw [hline]
  simp only [List.length_append, List.length_singleton, Nat.add_one_ne_zero, if_false]
  unfold service_line
  have hlen0 : ¬ (strip_eol (cmd ++ n ++ [10])).length = 0 := by
    intro h0
    have hnil := List.length_eq_zero.1 h0
    rw [hnil] at hbuf
    exact hne (by rw [← hbuf]; rfl)
  simp only [hlen0, if_false, hbuf, hs, Bool.not_true]
  rfl

/-- C3 (as stated, refuted): a logged-in client sends `UPLOAD f`, the content
`ab`, the sentinel and at once `DOWNLOAD f`.  When the sentinel and the
DOWNLOAD line arrive in one chunk, the upload is answered `OK` and stores
`ab`, but the DOWNLOAD line is dropped with the rest of the chunk: the
server sends nothing after `OK`.  When a chunk boundary falls inside the
sentinel, the receive loop takes sentinel and DOWNLOAD line as file
content. -/
theorem roundtrip_counterexample :
    (client_service 4 (fun _ => ⟨1, true, false⟩) sample_session sample_main_world
        [bytes "UPLOAD f\n", bytes "abEOFDOWNLOAD f\n"]).out = bytes "OK\n" ∧
    (client_service 4 (fun _ => ⟨1, true, false⟩) sample_session sample_main_world
        [bytes "UPLOAD f\n", bytes "abEOFDOWNLOAD f\n"]).world.fs
      (storage_path (bytes "hello") (bytes "f")) = some (bytes "ab") ∧
    (client_service 4 (fun _ => ⟨1, true, false⟩) sample_session sample_main_world
        [bytes "UPLOAD f\n", bytes "abE", bytes "OF", bytes "DOWNLOAD f\n"]).out = bytes "OK\n" ∧
    (client_service 4 (fun _ => ⟨1, true, false⟩) sample_session sample_main_world
        [bytes "UPLOAD f\n", bytes "abE", bytes "OF", bytes "DOWNLOAD f\n"]).world.fs
      (storage_path (bytes "hello") (bytes "f")) = some (bytes "abEOFDOWNLOAD f\n") := by
  decide

/-- C3 (amended): in a logged-in session, let the server read the line
`UPLOAD n`, then receive content `c` without the sentinel in any chunks
followed by the sentinel at the end of a chunk (no chunk boundary inside the
sentinel, nothing behind it in its chunk), then read the line `DOWNLOAD n`.
Let the file system accept the commit of the upload (the `rename` of the
temporary file to `storage/<user>/n`, or else the `open` of that path for
the fallback copy, is not refused), and let the completion signal of the
DOWNLOAD task not be lost.  If the upload is answered `OK`, the DOWNLOAD
makes the server send exactly `c` followed by the sentinel. -/
theorem upload_download_roundtrip (env1 env2 : Env) (s : Session) (w : World)
    (n c : List Byte) (chunks : List (List Byte)) (last : List Byte) (tr0 tr2 tr3 : Transport)
    (hs : s.logged_in = true) (hn : is_token 255 n) (hc : ¬ EOF_MARK <:+: c)
    (hsplit : chunks.flatten ++ last = c)
    (hchunks : ∀ ch ∈ chunks, ch ≠ [] ∧ ch.length ≤ 8192)
    (hlast : (last ++ EOF_MARK).length ≤ 8192)
    (hline1 : recv_line tr0 2048 =
      (some (bytes "UPLOAD " ++ n ++ [10]), chunks ++ (last ++ EOF_MARK) :: tr2))
    (hline2 : recv_line tr2 2048 = (some (bytes "DOWNLOAD " ++ n ++ [10]), tr3))
    (hcommit :
      w.rename_blocked (tmp_name n env1.now)
        (storage_path (strncpy s.current_user 63) (strncpy n 255)) = false ∨
      w.create_blocked (storage_path (strncpy s.current_user 63) (strncpy n 255)) = false)
    (hsig : env2.signal_lost = false)
    (hok : (service_step env1 s w tr0).out = send_ok) :
    (service_step env2 (service_step env1 s w tr0).sess (service_step env1 s w tr0).world
      (service_step env1 s w tr0).tr).out = c ++ EOF_MARK := by
  have hU : ∀ b ∈ bytes "UPLOAD ", b ≠ 0 := by decide
  have hD : ∀ b ∈ bytes "DOWNLOAD ", b ≠ 0 := by decide
  have hstep1 : service_step env1 s w tr0 =
      upload_command env1 s w (chunks ++ (last ++ EOF_MARK) :: tr2) (bytes "UPLOAD " ++ n) := by
    rw [service_step_command env1 s w tr0 _ (bytes "UPLOAD ") n hs hU hn hline1]
    unfold auth_command
    rw [if_pos (List.take_left' (by decide))]
  have hinfix_last : ¬ EOF_MARK <:+: last := by
    intro h
    apply hc
    rw [← hsplit]
    exact h.trans (List.suffix_append _ _).isInfix
  have hinfix_chunks : ∀ ch ∈ chunks, ch ≠ [] ∧ ch.length ≤ 8192 ∧ ¬ EOF_MARK <:+: ch := by
    intro ch hch
    refine ⟨(hchunks ch hch).1, (hchunks ch hch).2, fun h => hc ?_⟩
    rw [← hsplit]
    exact h.trans ((List.infix_of_mem_flatten hch).trans (List.prefix_append _ _).isInfix)
  have hEne : last ++ EOF_MARK ≠ [] := by
    have : EOF_MARK ≠ [] := by decide
    simp [this]
  have hrecv : upload_recv (chunks ++ (last ++ EOF_MARK) :: tr2) =
      ⟨c, size_add 0 c.length, true, tr2⟩ := by
    unfold upload_recv
    rw [upload_recv_loop_framed chunks last _ hinfix_chunks hlast hinfix_last _
      (pending_framed chunks _ _ (fun ch hch => (hchunks ch hch).1) hEne) [] 0, hsplit]
    rfl
  have hparse : sscanf_fname ((bytes "UPLOAD " ++ n).drop 7) = some n := by
    rw [List.drop_left' (by decide)]
    exact sscanf_fname_token hn
  rw [hstep1] at hok ⊢
  obtain ⟨hfs, hsess, htr⟩ :=
    upload_command_ok_stores env1 s w _ _ n c _ _ _ hparse hrecv hcommit hok
  rw [hsess, htr, service_step_command env2 s _ tr2 tr3 (bytes "DOWNLOAD ") n hs hD hn hline2]
  have h7 : (bytes "DOWNLOAD " ++ n).take 7 ≠ bytes "UPLOAD " := by
    have : bytes "DOWNLOAD " = bytes "DOWNLOA" ++ bytes "D " := by decide
    rw [this, List.append_assoc, List.take_left' (by decide)]
    decide
  unfold auth_command
  rw [if_neg h7, if_pos (List.take_left' (by decide))]
  apply download_command_found _ _ _ _ _ n c hsig
  · rw [List.drop_left' (by decide)]
    exact sscanf_fname_token hn
  · exact hfs

/-- C3 (amended) on the upload of `hello` as `f` in two chunks. -/
theorem upload_download_roundtrip_witness :
    (service_step ⟨1, true, false⟩ sample_session sample_main_world sample_roundtrip).out =
      send_ok ∧
    (service_step ⟨2, true, false⟩
      (service_step ⟨1, true, false⟩ sample_session sample_main_world sample_roundtrip).sess
      (service_step ⟨1, true, false⟩ sample_session sample_main_world sample_roundtrip).world
      (service_step ⟨1, true, false⟩ sample_session sample_main_world sample_roundtrip).tr).out =
      bytes "hello" ++ EOF_MARK :=
  ⟨by decide,
   upload_download_roundtrip ⟨1, true, false⟩ ⟨2, true, false⟩ sample_session
    sample_main_world (bytes "f") (bytes "hello")
    [bytes "he"] (bytes "llo") sample_roundtrip [bytes "DOWNL", bytes "OAD f\n"] [] rfl
    (by unfold is_token; decide) (by decide) (by decide) (by decide) (by decide)
    (by decide) (by decide) (Or.inl rfl) rfl (by decide)⟩

/-! ## Replies -/

theorem decimal_length (n : Nat) (h : n < 2 ^ 64) : (decimal n).length ≤ 20 := by
  unfold decimal
  rw [List.length_map]
  exact Nat.toDigitsCore_length 10 (by decide) (n + 1) n 20
    (lt_of_lt_of_le h (by norm_num)) (by decide)

theorem list_header_length (used : Nat) (h : used < 2 ^ 64) :
    (list_header used).length ≤ 41 := by
  have h1 : (bytes "Storage used: ").length = 14 := by decide
  have h2 : (bytes " bytes\n").length = 7 := by decide
  have := decimal_length used h
  simp only [list_header, List.length_append, h1, h2]
  omega

theorem list_line_length (f : FileNode) (h : f.size < 2 ^ 64) :
    (list_line f).length ≤ f.name.length + 30 := by
  have h1 : (bytes " (").length = 2 := by decide
  have h2 : (bytes " bytes)\n").length = 8 := by decide
  have := decimal_length f.size h
  simp only [list_line, List.length_append, h1, h2]
  omega

/-- The header fits the fresh buffer of 1024 bytes. -/
theorem list_header_holds (used : Nat) (h : used < 2 ^ 64) :
    ((({ cap := 1024, len := 0, text := [], in_bounds := true } : ListBuf).append
      (list_header used))).holds (list_header used) := by
  have hl := list_header_length used h
  have ht : (list_header used).take (1024 - 0 - 1) = list_header used :=
    List.take_of_length_le (by omega)
  have hm : (list_header used).length % 2 ^ 64 = (list_header used).length :=
    Nat.mod_eq_of_lt (by omega)
  unfold ListBuf.append ListBuf.holds
  simp only [Nat.not_lt_zero, if_false, List.length_nil, if_true, List.nil_append, ht,
    size_add, SIZE_MOD, Nat.zero_add, hm]
  refine ⟨trivial, trivial, trivial, by omega, by omega, by norm_num⟩

/-- One pass of the loop on a buffer that holds `content`, for a record whose
name has at most 255 bytes: the capacity stays or doubles, the line gets its
full room, and the buffer then holds `content` and the line. -/
theorem list_step_holds (b : ListBuf) (content : List Byte) (f : FileNode)
    (hb : b.holds content) (hname : f.name.length ≤ 255) (hsize : f.size < 2 ^ 64)
    (hlen : content.length < 2 ^ 62) :
    (list_step b f).holds (content ++ list_line f) ∧
    b.len + (list_line f).length + 1 ≤ (list_step b f).cap ∧
    ((list_step b f).cap = b.cap ∨ (list_step b f).cap = 2 * b.cap) := by
  obtain ⟨cap, len, text, inb⟩ := b
  obtain ⟨hin, htext, hl, hlt, hcap, hmod⟩ := hb
  simp only at hin htext hl hlt hcap hmod
  subst hin htext hl
  have hline := list_line_length f hsize
  simp only [SIZE_MOD] at hmod
  have hneeded : size_add (size_add text.length (size_add f.name.length 50)) 1 =
      text.length + f.name.length + 51 := by
    simp only [size_add, SIZE_MOD]
    omega
  have hsum : size_add text.length (list_line f).length =
      text.length + (list_line f).length := by
    simp only [size_add, SIZE_MOD]
    omega
  unfold list_step
  simp only [hneeded]
  by_cases hgrow : text.length + f.name.length + 51 > cap
  · have hdouble : (cap * 2) % 2 ^ 64 = 2 * cap := by
      omega
    have hnot : ¬ 2 * cap < text.length := by omega
    have htake : (list_line f).take (2 * cap - text.length - 1) = list_line f :=
      List.take_of_length_le (by omega)
    simp only [hgrow, if_true, SIZE_MOD, hdouble, ListBuf.append, ListBuf.holds, hnot,
      if_false, htake, hsum, List.length_append]
    refine ⟨⟨trivial, trivial, trivial, by omega, by omega, by omega⟩, by omega, Or.inr trivial⟩
  · have hnot : ¬ cap < text.length := by omega
    have htake : (list_line f).take (cap - text.length - 1) = list_line f :=
      List.take_of_length_le (by omega)
    simp only [hgrow, if_false, ListBuf.append, ListBuf.holds, hnot, htake,
      hsum, List.length_append, SIZE_MOD, if_true]
    refine ⟨⟨trivial, trivial, trivial, by omega, by omega, by omega⟩, by omega, Or.inl trivial⟩

theorem list_state_succ (u : User) (k : Nat) (f : FileNode) (hf : u.files[k]? = some f) :
    list_state u (k + 1) = list_step (list_state u k) f := by
  unfold list_state
  rw [List.take_succ, hf, List.foldl_append]
  rfl

theorem report_prefix_length (u : User) (k : Nat) :
    (list_header u.used ++ ((u.files.take k).map list_line).flatten).length ≤
      (report_text u).length := by
  have key : (u.files.map list_line).flatten =
      ((u.files.take k).map list_line).flatten ++ ((u.files.drop k).map list_line).flatten := by
    rw [← List.flatten_append, ← List.map_append, List.take_append_drop]
  unfold report_text
  rw [key]
  simp only [List.length_append]
  omega

theorem list_state_holds (u : User) (hused : u.used < 2 ^ 64)
    (hfiles : ∀ f ∈ u.files, f.name.length ≤ 255 ∧ f.size < 2 ^ 64)
    (hfit : (report_text u).length < 2 ^ 62) (k : Nat) (hk : k ≤ u.files.length) :
    (list_state u k).holds
      (list_header u.used ++ ((u.files.take k).map list_line).flatten) := by
  induction k with
  | zero =>
    have := list_header_holds u.used hused
    simpa [list_state] using this
  | succ k ih =>
    have hlt : k < u.files.length := hk
    have hget : u.files[k]? = some u.files[k] := List.getElem?_eq_getElem hlt
    have hmem : u.files[k] ∈ u.files := List.getElem_mem hlt
    have hstep := (list_step_holds (list_state u k) _ u.files[k] (ih (Nat.le_of_lt hlt))
      (hfiles _ hmem).1 (hfiles _ hmem).2
      (lt_of_le_of_lt (report_prefix_length u k) hfit)).1
    have hc : list_header u.used ++ ((u.files.take (k + 1)).map list_line).flatten =
        (list_header u.used ++ ((u.files.take k).map list_line).flatten) ++
          list_line u.files[k] := by
      rw [List.take_succ, hget]
      simp only [Option.toList, List.map_append, List.map_cons, List.map_nil,
        List.flatten_append, List.flatten_cons, List.flatten_nil, List.append_nil,
        List.append_assoc]
    rw [list_state_succ u k _ hget, hc]
    exact hstep

/-- C19: for an account whose file names have at most 255 bytes (with `used`
and the sizes being `size_t` values, and a report that fits an allocation:
fewer than `2 ^ 62` bytes), at every point of the loop of `user_list_files`
the buffer has `len < cap`, no write has left it and its text is exactly the
header and the lines written so far, uncut (`strlen = len`); and at each
record the capacity after the test, unchanged or doubled once, leaves room
for the whole line and its terminating NUL. -/
theorem list_buffer_safe (u : User) (hused : u.used < 2 ^ 64)
    (hfiles : ∀ f ∈ u.files, f.name.length ≤ 255 ∧ f.size < 2 ^ 64)
    (hfit : (report_text u).length < 2 ^ 62) (k : Nat) (hk : k ≤ u.files.length) :
    (list_state u k).len < (list_state u k).cap ∧
    (list_state u k).in_bounds = true ∧
    (list_state u k).text.length = (list_state u k).len ∧
    (list_state u k).text =
      list_header u.used ++ ((u.files.take k).map list_line).flatten ∧
    (∀ f, u.files[k]? = some f →
      (list_state u k).len + (list_line f).length + 1 ≤ (list_state u (k + 1)).cap ∧
      ((list_state u (k + 1)).cap = (list_state u k).cap ∨
        (list_state u (k + 1)).cap = 2 * (list_state u k).cap)) := by
  have hgood := list_state_holds u hused hfiles hfit k hk
  obtain ⟨hin, htext, hl, hlt, _, _⟩ := hgood
  refine ⟨hlt, hin, by rw [htext, hl], htext, ?_⟩
  intro f hf
  have hmem : f ∈ u.files := List.getElem?_mem hf
  have hstep := list_step_holds (list_state u k) _ f
    (list_state_holds u hused hfiles hfit k hk) (hfiles f hmem).1 (hfiles f hmem).2
    (lt_of_le_of_lt (report_prefix_length u k) hfit)
  rw [list_state_succ u k f hf]
  exact hstep.2

/-- C19 on the sample account, at its second record. -/
theorem list_buffer_safe_witness :
    (list_state sample_account 1).len < (list_state sample_account 1).cap ∧
    (list_state sample_account 1).in_bounds = true ∧
    (list_state sample_account 1).text.length = (list_state sample_account 1).len ∧
    (list_state sample_account 1).text =
      list_header sample_account.used ++
        ((sample_account.files.take 1).map list_line).flatten ∧
    (∀ f, sample_account.files[1]? = some f →
      (list_state sample_account 1).len + (list_line f).length + 1 ≤
        (list_state sample_account (1 + 1)).cap ∧
      ((list_state sample_account (1 + 1)).cap = (list_state sample_account 1).cap ∨
        (list_state sample_account (1 + 1)).cap = 2 * (list_state sample_account 1).cap)) :=
  list_buffer_safe sample_account (by decide) (by decide) (by decide) 1 (by decide)

theorem long_name_report_cut (nm : CStr) (h : nm.length = 2100) :
    (user_list_files
        [{ username := bytes "u", password := bytes "p", used := 1,
           files := [{ name := nm, size := 1 }] }] (bytes "u")).map
      (fun b => (b.cap, b.text.length)) = some (2048, 2047) ∧
    (report_text { username := bytes "u", password := bytes "p", used := 1,
                   files := [{ name := nm, size := 1 }] }).length = 2133 := by
  have hh : (list_header 1).length = 22 := by decide
  have hl : (list_line { name := nm, size := 1 }).length = 2111 := by
    have h1 : (bytes " (").length = 2 := by decide
    have h2 : (bytes " bytes)\n").length = 8 := by decide
    have h3 : (decimal 1).length = 1 := by decide
    simp only [list_line, List.length_append, h, h1, h2, h3]
  have hb := list_header_holds 1 (by norm_num)
  obtain ⟨hin, htext, hlen, _, _, _⟩ := hb
  have hcap : (({ cap := 1024, len := 0, text := [], in_bounds := true } : ListBuf).append
      (list_header 1)).cap = 1024 := by
    unfold ListBuf.append
    split <;> rfl
  constructor
  · simp only [user_list_files, user_find_locked, if_true, Option.map_some', List.foldl_cons,
      List.foldl_nil, Option.some.injEq, Prod.mk.injEq]
    generalize (({ cap := 1024, len := 0, text := [], in_bounds := true } : ListBuf).append
      (list_header 1)) = b at hin htext hlen hcap
    obtain ⟨cap, len, text, inb⟩ := b
    simp only at hin htext hlen hcap
    subst htext hlen hcap
    simp [list_step, ListBuf.append, size_add, SIZE_MOD, h, hh, hl, List.length_take]
  · simp only [report_text, List.map_cons, List.map_nil, List.flatten_cons, List.flatten_nil,
      List.append_nil, List.length_append, hh, hl]

/-- C12 (as stated, refuted): for an account with one file whose name has
2100 bytes the buffer is doubled once, to 2048 bytes, and the line of 2111
bytes is cut: the report has 2047 bytes instead of the 2133 of header and
line, so it does not hold the line of the record. -/
theorem list_report_cut_counterexample :
    (user_list_files [sample_long_name_account] (bytes "u")).map
      (fun b => (b.cap, b.text.length)) = some (2048, 2047) ∧
    (report_text sample_long_name_account).length = 2133 :=
  long_name_report_cut (List.replicate 2100 97) (List.length_replicate 2100 97)

/-- C12 (amended): for an existing account whose file names have at most 255
bytes (with `used` and the sizes being `size_t` values and a report of fewer
than `2 ^ 62` bytes), `user_list_files` returns the header line
`Storage used: <used> bytes` followed by one line `<name> (<size> bytes)` per
record of the file list and nothing else (the header alone when there is no
record), and `handle_list` succeeds with that report; `handle_list` fails,
with the message "user not found", exactly when the account does not exist. -/
theorem list_report_spec (t : Task) (w : World) (u : User)
    (hu : user_find_locked w.users t.username = some u) (hused : u.used < 2 ^ 64)
    (hfiles : ∀ f ∈ u.files, f.name.length ≤ 255 ∧ f.size < 2 ^ 64)
    (hfit : (report_text u).length < 2 ^ 62) :
    (user_list_files w.users t.username).map ListBuf.text =
      some (list_header u.used ++ (u.files.map list_line).flatten) ∧
    (u.files = [] →
      (user_list_files w.users t.username).map ListBuf.text = some (list_header u.used)) ∧
    (handle_list t w).1.status = 0 ∧
    (handle_list t w).1.result_buf =
      some (list_header u.used ++ (u.files.map list_line).flatten) ∧
    (∀ (t1 : Task) (w1 : World),
      ((handle_list t1 w1).1.status ≠ 0 ↔ user_find_locked w1.users t1.username = none) ∧
      (user_find_locked w1.users t1.username = none →
        (handle_list t1 w1).1.status = -1 ∧
        (handle_list t1 w1).1.errmsg = bytes "user not found")) := by
  have hstate : user_list_files w.users t.username = some (list_state u u.files.length) := by
    simp [user_list_files, hu, list_state]
  have hgood := list_state_holds u hused hfiles hfit u.files.length (Nat.le_refl _)
  have htext : (list_state u u.files.length).text =
      list_header u.used ++ (u.files.map list_line).flatten := by
    rw [hgood.2.1, List.take_length]
  refine ⟨by rw [hstate, Option.map_some', htext], ?_, ?_, ?_, ?_⟩
  · intro hnil
    rw [hstate, Option.map_some', htext, hnil]
    simp
  · simp [handle_list, hstate]
  · simp [handle_list, hstate, htext]
  · intro t1 w1
    have hm : snprintf 256 (bytes "user not found") = bytes "user not found" := by decide
    unfold handle_list
    cases h : user_list_files w1.users t1.username with
    | none =>
      have hnone : user_find_locked w1.users t1.username = none := by
        unfold user_list_files at h
        split at h
        · assumption
        · simp at h
      simp [hnone, hm]
    | some b =>
      have hsome : user_find_locked w1.users t1.username ≠ none := by
        intro hn
        simp [user_list_files, hn] at h
      simp [hsome]

/-- C12 (amended) on the sample account `u`. -/
theorem list_report_spec_witness :
    (user_list_files [sample_account] (bytes "u")).map ListBuf.text =
      some (bytes "Storage used: 8 bytes\nb (3 bytes)\na (5 bytes)\n") :=
  ((list_report_spec { sample_delete_task with username := bytes "u" }
      { users := [sample_account], fs := fun _ => none } sample_account
      (by decide) (by decide) (by decide) (by decide)).1).trans (by decide)

/-! ## Storage commit -/

/-- C13 (evaluation at the failing input): an upload task whose temporary
file is gone passes the account and quota checks; `rename` fails and
`safe_copy_file` cannot open the source, so no destination file is
produced.  `handle_upload` still sets status 0 and adds the record: the
account lists the file `a` with 5 bytes used while `storage/u/a` does not
exist. -/
theorem handle_upload_commit_failure_reports_ok :
    (fs_rename sample_fresh_world.fs sample_fresh_world.rename_blocked
      (bytes "tmp_storage/gone.tmp") (storage_path (bytes "u") (bytes "a"))).1 = -1 ∧
    safe_copy_file sample_fresh_world.fs sample_fresh_world.create_blocked
      (bytes "tmp_storage/gone.tmp")
      (storage_path (bytes "u") (bytes "a")) (storage_path (bytes "u") (bytes "a")) = none ∧
    (handle_upload
      { sample_upload_task with tmp_path := bytes "tmp_storage/gone.tmp", filesize := 5 }
      sample_fresh_world).1.status = 0 ∧
    (handle_upload
      { sample_upload_task with tmp_path := bytes "tmp_storage/gone.tmp", filesize := 5 }
      sample_fresh_world).2.users.map (fun a => (a.used, a.files)) =
      [(5, [{ name := bytes "a", size := 5 }])] ∧
    (handle_upload
      { sample_upload_task with tmp_path := bytes "tmp_storage/gone.tmp", filesize := 5 }
      sample_fresh_world).2.fs (storage_path (bytes "u") (bytes "a")) = none := by
  decide

/-! ## Concurrent uploads -/

/-- Running the two sections of `handle_upload` one after the other is
`handle_upload`. -/
theorem handle_upload_eq_check_commit (t : Task) (w : World) :
    handle_upload t w =
      if (upload_check t w).1 then upload_commit (upload_check t w).2.1 (upload_check t w).2.2
      else (upload_check t w).2 := by
  unfold handle_upload upload_check upload_commit
  split
  · rfl
  · split <;> rfl

/-- C14 (evaluation at the failing interleaving): two workers run
`handle_upload` for the files `a` and `b` of account `u`, 30 MiB each (each
within the quota of 50 MiB, 60 MiB together).  When both pass the quota
test before either calls `user_add_file`, both uploads are accepted and
`used` ends at 60 MiB, above `MAX_QUOTA`. -/
theorem concurrent_uploads_overcommit :
    ((upload_schedule [0, 1, 0, 1] (sample_two_uploads, sample_two_tmp_world)).1.map
      (fun wk => (wk.phase, wk.task.status))) =
      [(UploadPhase.finished, 0), (UploadPhase.finished, 0)] ∧
    (upload_schedule [0, 1, 0, 1] (sample_two_uploads, sample_two_tmp_world)).2.users.map
      User.used = [62914560] ∧
    MAX_QUOTA < 62914560 ∧
    30 * 1024 * 1024 ≤ MAX_QUOTA := by
  decide

/-! ## Connection admission queue -/

theorem push_client_fd_contents (q q1 : ClientQ) (fd : Int) (hq : q.wf)
    (h : push_client_fd q fd = some q1) :
    q1.wf ∧ q1.contents = q.contents ++ [fd] := by
  obtain ⟨hc, hh, ht⟩ := hq
  unfold push_client_fd at h
  split at h
  · simp at h
  · rename_i hfull
    simp only [Option.some.injEq] at h
    subst h
    simp only [CLIENT_Q_CAP] at hc hh ht hfull
    refine ⟨⟨?_, ?_, ?_⟩, ?_⟩
    · simp only [CLIENT_Q_CAP]; omega
    · simp only [CLIENT_Q_CAP]; exact hh
    · simp only [CLIENT_Q_CAP, ht]; omega
    · simp only [ClientQ.contents, List.range_succ, List.map_append, List.map_cons,
        List.map_nil, CLIENT_Q_CAP, ht, if_true]
      congr 1
      apply List.map_congr_left
      intro i hi
      have hi' : i < q.count := List.mem_range.1 hi
      have hne : ¬ (q.head + i) % 256 = (q.head + q.count) % 256 := by omega
      simp only [hne, if_false]

theorem pop_client_fd_contents (q q1 : ClientQ) (fd : Int) (hq : q.wf)
    (h : pop_client_fd q = some (fd, q1)) :
    q1.wf ∧ q.contents = fd :: q1.contents := by
  obtain ⟨hc, hh, ht⟩ := hq
  unfold pop_client_fd at h
  split at h
  · simp at h
  · rename_i hempty
    simp only [Option.some.injEq, Prod.mk.injEq] at h
    obtain ⟨h1, h2⟩ := h
    subst h1 h2
    simp only [CLIENT_Q_CAP] at hc hh ht hempty
    obtain ⟨n, hn⟩ : ∃ n, q.count = n + 1 := ⟨q.count - 1, by omega⟩
    refine ⟨⟨?_, ?_, ?_⟩, ?_⟩
    · simp only [CLIENT_Q_CAP]; omega
    · simp only [CLIENT_Q_CAP]; omega
    · simp only [CLIENT_Q_CAP, ht]; omega
    · simp only [ClientQ.contents, hn, List.range_succ_eq_map, List.map_cons, List.map_map,
        Nat.add_zero, Nat.add_sub_cancel, CLIENT_Q_CAP, Nat.mod_eq_of_lt hh]
      congr 1
      apply List.map_congr_left
      intro i _
      simp only [Function.comp, Nat.succ_eq_add_one]
      congr 1
      omega

theorem run_queue_contents (ops : List QueueOp) (q q2 : ClientQ) (outs : List Int)
    (hq : q.wf) (h : run_queue q ops = some (outs, q2)) :
    q2.wf ∧ q.contents ++ pushed_fds ops = outs ++ q2.contents ∧
    outs.length = pop_count ops := by
  induction ops generalizing q outs with
  | nil =>
    simp only [run_queue, Option.some.injEq, Prod.mk.injEq] at h
    obtain ⟨h1, h2⟩ := h
    subst h1 h2
    simp [hq, pushed_fds, pop_count]
  | cons op rest ih =>
    cases op with
    | push fd =>
      simp only [run_queue] at h
      split at h
      · simp at h
      · rename_i q1 hpush
        obtain ⟨hwf, hcont⟩ := push_client_fd_contents q q1 fd hq hpush
        obtain ⟨h1, h2, h3⟩ := ih q1 outs hwf h
        refine ⟨h1, ?_, by simpa [pop_count] using h3⟩
        rw [← h2, hcont]
        simp [pushed_fds]
    | pop =>
      simp only [run_queue] at h
      split at h
      · simp at h
      · rename_i fd q1 hpop
        obtain ⟨hwf, hcont⟩ := pop_client_fd_contents q q1 fd hq hpop
        split at h
        · simp at h
        · rename_i outs1 q3 hrun
          simp only [Option.some.injEq, Prod.mk.injEq] at h
          obtain ⟨h1, h2⟩ := h
          subst h1 h2
          obtain ⟨h1, h2, h3⟩ := ih q1 outs1 hwf hrun
          refine ⟨h1, ?_, by simp [pop_count, h3]⟩
          rw [hcont]
          simp only [pushed_fds, List.cons_append, List.cons.injEq, true_and]
          exact h2

theorem run_queue_take (ops : List QueueOp) (q q2 : ClientQ) (outs : List Int)
    (h : run_queue q ops = some (outs, q2)) (k : Nat) :
    ∃ o1 q1, run_queue q (ops.take k) = some (o1, q1) := by
  induction ops generalizing q q2 outs k with
  | nil => exact ⟨[], q, by simp [run_queue]⟩
  | cons op rest ih =>
    cases k with
    | zero => exact ⟨[], q, by simp [run_queue]⟩
    | succ k =>
      cases op with
      | push fd =>
        simp only [run_queue, List.take_succ_cons] at h ⊢
        split at h
        · simp at h
        · rename_i q1 hpush
          exact ih q1 q2 outs h k
      | pop =>
        simp only [run_queue, List.take_succ_cons] at h ⊢
        split at h
        · simp at h
        · rename_i fd q1 hpop
          split at h
          · simp at h
          · rename_i outs1 q3 hrun
            obtain ⟨o1, q4, h4⟩ := ih q1 q3 outs1 hrun k
            exact ⟨fd :: o1, q4, by simp [h4]⟩

theorem clientq_init_wf : ClientQ.init.wf := by
  simp [ClientQ.wf, ClientQ.init, CLIENT_Q_CAP]

/-- C15: for every sequence of `push_client_fd` and `pop_client_fd` calls from
the initial queue in which no call has to wait (push only with
`count < 256`, pop only with `count > 0`), the handles returned by the pops
are the first handles pushed, in push order, one per pop; the handles still
queued are the remaining ones, in order (none lost, none duplicated); and
after every call the queue holds at most 256 handles. -/
theorem admission_queue_fifo (ops : List QueueOp) (outs : List Int) (q : ClientQ)
    (h : run_queue ClientQ.init ops = some (outs, q)) :
    outs = (pushed_fds ops).take (pop_count ops) ∧
    q.contents = (pushed_fds ops).drop (pop_count ops) ∧
    q.contents.length = q.count ∧
    (∀ k, ∃ o1 q1, run_queue ClientQ.init (ops.take k) = some (o1, q1) ∧
      q1.count ≤ 256) := by
  obtain ⟨_, h2, h3⟩ := run_queue_contents ops ClientQ.init q outs clientq_init_wf h
  have h0 : ClientQ.init.contents = [] := by simp [ClientQ.contents, ClientQ.init]
  rw [h0, List.nil_append] at h2
  refine ⟨?_, ?_, by simp [ClientQ.contents], ?_⟩
  · rw [h2, ← h3, List.take_left' rfl]
  · rw [h2, ← h3, List.drop_left' rfl]
  · intro k
    obtain ⟨o1, q1, h1⟩ := run_queue_take ops ClientQ.init q outs h k
    exact ⟨o1, q1, h1, (run_queue_contents _ ClientQ.init q1 o1 clientq_init_wf h1).1.1⟩

/-- C15 on the calls push 3, push 4, pop, push 5. -/
theorem admission_queue_fifo_witness :
    (run_queue ClientQ.init [.push 3, .push 4, .pop, .push 5]).map Prod.fst = some [3] ∧
    ∀ outs q, run_queue ClientQ.init [.push 3, .push 4, .pop, .push 5] = some (outs, q) →
      outs = [3] ∧ q.contents = [4, 5] :=
  ⟨by decide, fun outs q h =>
    ⟨(admission_queue_fifo [.push 3, .push 4, .pop, .push 5] outs q h).1,
     (admission_queue_fifo [.push 3, .push 4, .pop, .push 5] outs q h).2.1⟩⟩

/-! ## Task queue -/

theorem linked_congr (next1 next2 : Nat → Option Nat) (l : List Nat) (start : Option Nat)
    (h : ∀ a ∈ l, next1 a = next2 a) (hl : linked next1 l start) : linked next2 l start := by
  induction l generalizing start with
  | nil => exact hl
  | cons a rest ih =>
    obtain ⟨h1, h2⟩ := hl
    refine ⟨h1, ?_⟩
    rw [← h a (List.mem_cons_self _ _)]
    exact ih _ (fun b hb => h b (List.mem_cons_of_mem _ hb)) h2

/-- Linking a new task behind the last one of a chain. -/
theorem linked_append (next : Nat → Option Nat) (l : List Nat) (last t : Nat)
    (start : Option Nat) (hnd : (l ++ [last]).Nodup) (ht : t ∉ l ++ [last])
    (hl : linked next (l ++ [last]) start) :
    linked (fun a => if a = last then some t else if a = t then none else next a)
      (l ++ [last] ++ [t]) start := by
  induction l generalizing start with
  | nil =>
    obtain ⟨h1, _⟩ := hl
    have hne : t ≠ last := by
      intro h
      exact ht (by simp [h])
    simp only [List.nil_append, List.cons_append, linked, h1, if_true, hne, if_false, true_and]
  | cons a rest ih =>
    obtain ⟨h1, h2⟩ := hl
    have ha_last : a ≠ last := by
      intro h
      have : (a :: (rest ++ [last])).Nodup := hnd
      rw [List.nodup_cons] at this
      exact this.1 (by simp [h])
    have ha_t : a ≠ t := by
      intro h
      exact ht (by simp [h])
    have hnd' : (rest ++ [last]).Nodup := (List.nodup_cons.1 hnd).2
    have ht' : t ∉ rest ++ [last] := fun hx => ht (List.mem_cons_of_mem _ hx)
    refine ⟨h1, ?_⟩
    simp only [ha_last, ha_t, if_false]
    exact ih _ hnd' ht' h2

theorem push_task_holds (q : TaskQ) (l : List Nat) (t : Nat) (hq : q.holds l) (ht : t ∉ l) :
    (push_task q t).holds (l ++ [t]) := by
  obtain ⟨hl, htail, hnd⟩ := hq
  have hnd' : (l ++ [t]).Nodup := by
    rw [List.nodup_append]
    refine ⟨hnd, List.nodup_singleton t, ?_⟩
    intro a ha hb
    rw [List.mem_singleton] at hb
    exact ht (hb ▸ ha)
  rcases List.eq_nil_or_concat l with hnil | ⟨init, last, hcat⟩
  · subst hnil
    simp only [List.getLast?_nil] at htail
    simp only [push_task, htail]
    refine ⟨?_, by simp, hnd'⟩
    simp [linked]
  · rw [List.concat_eq_append] at hcat
    subst hcat
    simp at htail
    simp only [push_task, htail]
    refine ⟨linked_append q.next init last t q.task_head hnd ht hl, by simp, hnd'⟩

theorem pop_task_holds (q : TaskQ) (l : List Nat) (hq : q.holds l) :
    (l = [] ∧ pop_task q = none) ∨
    ∃ a rest q1, l = a :: rest ∧ pop_task q = some (a, q1) ∧ q1.holds rest := by
  obtain ⟨hl, htail, hnd⟩ := hq
  cases l with
  | nil =>
    left
    have h : q.task_head = none := hl
    simp [pop_task, h]
  | cons a rest =>
    right
    obtain ⟨h1, h2⟩ := hl
    refine ⟨a, rest,
      { next := q.next, task_head := q.next a,
        task_tail := if q.next a = none then none else q.task_tail },
      rfl, by simp only [pop_task, h1], ?_⟩
    refine ⟨h2, ?_, (List.nodup_cons.1 hnd).2⟩
    cases rest with
    | nil =>
      have h3 : q.next a = none := h2
      simp [h3]
    | cons b tl =>
      obtain ⟨h3, _⟩ := h2
      simp only [h3, htail, List.getLast?_cons_cons]
      simp

theorem run_tasks_holds (ops : List TaskOp) (q q2 : TaskQ) (l outs : List Nat)
    (hq : q.holds l) (hfresh : fresh_pushes l ops = true)
    (h : run_tasks q ops = some (outs, q2)) :
    ∃ l2, q2.holds l2 ∧ l ++ pushed_tasks ops = outs ++ l2 ∧
      outs.length = task_pop_count ops := by
  induction ops generalizing q l outs with
  | nil =>
    simp only [run_tasks, Option.some.injEq, Prod.mk.injEq] at h
    obtain ⟨h1, h2⟩ := h
    subst h1 h2
    exact ⟨l, hq, by simp [pushed_tasks], by simp [task_pop_count]⟩
  | cons op rest ih =>
    cases op with
    | push t =>
      simp only [run_tasks] at h
      simp only [fresh_pushes, Bool.and_eq_true, decide_eq_true_eq] at hfresh
      simp only [pushed_tasks]
      obtain ⟨l2, h1, h2, h3⟩ := ih (push_task q t) (l ++ [t]) outs
        (push_task_holds q l t hq hfresh.1) hfresh.2 h
      exact ⟨l2, h1, by simpa [List.append_assoc] using h2, by simpa [task_pop_count] using h3⟩
    | pop =>
      simp only [run_tasks] at h
      simp only [fresh_pushes] at hfresh
      simp only [pushed_tasks]
      rcases pop_task_holds q l hq with ⟨_, hnone⟩ | ⟨a, tl, q1, hl, hpop, hq1⟩
      · simp [hnone] at h
      · subst hl
        simp only [hpop] at h
        split at h
        · simp at h
        · rename_i outs1 q3 hrun
          simp only [Option.some.injEq, Prod.mk.injEq] at h
          obtain ⟨h1, h2⟩ := h
          subst h1 h2
          obtain ⟨l2, h1, h2, h3⟩ := ih q1 tl outs1 hq1 hfresh hrun
          exact ⟨l2, h1, by simp [h2], by simp [task_pop_count, h3]⟩

theorem run_tasks_take (ops : List TaskOp) (q q2 : TaskQ) (outs : List Nat)
    (h : run_tasks q ops = some (outs, q2)) (k : Nat) :
    ∃ o1 q1, run_tasks q (ops.take k) = some (o1, q1) := by
  induction ops generalizing q q2 outs k with
  | nil => exact ⟨[], q, by simp [run_tasks]⟩
  | cons op rest ih =>
    cases k with
    | zero => exact ⟨[], q, by simp [run_tasks]⟩
    | succ k =>
      cases op with
      | push t =>
        simp only [run_tasks, List.take_succ_cons] at h ⊢
        exact ih _ q2 outs h k
      | pop =>
        simp only [run_tasks, List.take_succ_cons] at h ⊢
        split at h
        · simp at h
        · rename_i t q1 hpop
          split at h
          · simp at h
          · rename_i outs1 q3 hrun
            obtain ⟨o1, q4, h4⟩ := ih q1 q3 outs1 hrun k
            exact ⟨t :: o1, q4, by simp [h4]⟩

theorem fresh_pushes_take (ops : List TaskOp) (l : List Nat) (k : Nat)
    (h : fresh_pushes l ops = true) : fresh_pushes l (ops.take k) = true := by
  induction ops generalizing l k with
  | nil => simpa using h
  | cons op rest ih =>
    cases k with
    | zero => simp [fresh_pushes]
    | succ k =>
      cases op with
      | push t =>
        simp only [fresh_pushes, Bool.and_eq_true, decide_eq_true_eq, List.take_succ_cons] at h ⊢
        exact ⟨h.1, ih _ k h.2⟩
      | pop =>
        simp only [fresh_pushes, List.take_succ_cons] at h ⊢
        exact ih _ k h

theorem taskq_holds_null (q : TaskQ) (l : List Nat) (hq : q.holds l) :
    (q.task_tail = none ↔ q.task_head = none) := by
  obtain ⟨hl, htail, _⟩ := hq
  cases l with
  | nil =>
    have h : q.task_head = none := hl
    simp [h, htail]
  | cons a rest =>
    obtain ⟨h1, _⟩ := hl
    have h2 : (a :: rest).getLast? ≠ none := by simp
    rw [htail, h1]
    simp [h2]

theorem taskq_init_holds : TaskQ.init.holds [] := by
  simp [TaskQ.holds, TaskQ.init, linked]

/-- C16 (as stated, refuted): the task at address 7 is pushed twice while it
is still queued.  The second `push_task` makes its `next` field point to the
task itself, so the queue never becomes empty: three pops, each on a queue
that is not empty, return the task three times although it was pushed
twice. -/
theorem task_pushed_twice_counterexample :
    (run_tasks TaskQ.init [.push 7, .push 7, .pop, .pop, .pop]).map Prod.fst =
      some [7, 7, 7] ∧
    pushed_tasks [.push 7, .push 7, .pop, .pop, .pop] = [7, 7] ∧
    ((run_tasks TaskQ.init [.push 7, .push 7, .pop, .pop, .pop]).map
      (fun r => r.2.task_head)) = some (some 7) := by
  decide

/-- C16 (amended): for every sequence of `push_task` and `pop_task` calls from
the empty queue in which every pop runs on a queue that is not empty and no
task is pushed while it is still queued, the tasks returned by the pops are
the tasks pushed, in push order: the i-th pop returns the i-th task pushed,
so each is returned once; and after every call `task_tail` is NULL exactly
when `task_head` is NULL.  `push_task` has no capacity test and never
waits. -/
theorem task_queue_fifo (ops : List TaskOp) (outs : List Nat) (q : TaskQ)
    (hfresh : fresh_pushes [] ops = true)
    (h : run_tasks TaskQ.init ops = some (outs, q)) :
    outs = (pushed_tasks ops).take (task_pop_count ops) ∧
    outs.length = task_pop_count ops ∧
    (∀ k, ∃ o1 q1, run_tasks TaskQ.init (ops.take k) = some (o1, q1) ∧
      (q1.task_tail = none ↔ q1.task_head = none)) := by
  obtain ⟨l2, _, h2, h3⟩ := run_tasks_holds ops TaskQ.init q [] outs taskq_init_holds hfresh h
  rw [List.nil_append] at h2
  refine ⟨by rw [h2, ← h3, List.take_left' rfl], h3, ?_⟩
  intro k
  obtain ⟨o1, q1, h1⟩ := run_tasks_take ops TaskQ.init q outs h k
  obtain ⟨l3, hl3, _, _⟩ := run_tasks_holds (ops.take k) TaskQ.init q1 [] o1
    taskq_init_holds (fresh_pushes_take ops [] k hfresh) h1
  exact ⟨o1, q1, h1, taskq_holds_null q1 l3 hl3⟩

/-- C16 (amended) on the calls push 7, push 8, pop, push 9, pop, push 7 (the
address 7 used again after its task was popped). -/
theorem task_queue_fifo_witness :
    (run_tasks TaskQ.init [.push 7, .push 8, .pop, .push 9, .pop, .push 7]).map Prod.fst =
      some [7, 8] ∧
    ∀ outs q,
      run_tasks TaskQ.init [.push 7, .push 8, .pop, .push 9, .pop, .push 7] = some (outs, q) →
      outs = [7, 8] :=
  ⟨by decide, fun outs q h =>
    (task_queue_fifo [.push 7, .push 8, .pop, .push 9, .pop, .push 7] outs q (by decide) h).1⟩

/-! ## Completion signal of a task -/

/-- C17 (evaluation at the failing interleaving): the worker pops the task,
runs the handler and calls `pthread_cond_signal` before the client has
reached `pthread_cond_wait`.  The signal (the only one for this task) finds
no waiting thread; the client then blocks in `pthread_cond_wait` and no
thread can take another step: the wait never returns and the result is never
read.  When the client is already waiting, the same statements end with the
result read after the handler. -/
theorem completion_signal_lost :
    sync_run SyncState.init
        [.client, .worker, .worker, .worker, .worker, .worker, .client, .client] =
      some SyncState.lost_signal ∧
    client_step SyncState.lost_signal = none ∧
    worker_step SyncState.lost_signal = none ∧
    sync_run SyncState.init
        [.client, .client, .client, .worker, .worker, .worker, .worker, .worker,
         .client, .client, .client] = some SyncState.completed := by
  decide

/-! ## Tasks run one at a time -/

theorem size_add_exact (a b : Nat) (h : a + b < 2 ^ 64) : size_add a b = a + b := by
  simp only [size_add, SIZE_MOD]
  exact Nat.mod_eq_of_lt h

theorem size_sub_exact (a b : Nat) (hb : b ≤ a) (ha : a < 2 ^ 64) : size_sub a b = a - b := by
  simp only [size_sub, SIZE_MOD]
  omega

theorem withinQuota_apply {w : World} (h : WithinQuota w.users) (op : StorageOp)
    (hop : op.size_fits) : WithinQuota (op.apply w).users := by
  have hmax : MAX_QUOTA = 52428800 := by decide
  intro a ha
  cases op with
  | upload t =>
    simp only [StorageOp.size_fits] at hop
    simp only [StorageOp.apply, handle_upload] at ha
    split at ha
    · exact h a ha
    · rename_i u hu
      split at ha
      · exact h a ha
      · rename_i hq
        simp only [user_add_file] at ha
        rcases mem_update_found ha with h1 | ⟨v, hv, h1⟩
        · exact h a h1
        · rw [hu] at hv
          simp only [Option.some.injEq] at hv
          subst hv h1
          obtain ⟨h2, h3⟩ := h u (user_find_locked_some hu).1
          have hexact : size_add u.used t.filesize = u.used + t.filesize :=
            size_add_exact _ _ (by omega)
          rw [hexact] at hq
          simp only [hexact, files_total, List.map_cons, List.sum_cons]
          simp only [files_total] at h2
          omega
  | delete t =>
    simp only [StorageOp.apply, handle_delete] at ha
    split at ha
    · exact h a ha
    · split at ha
      · exact h a ha
      · simp only [user_remove_file] at ha
        split at ha
        · exact h a ha
        · rename_i u hu
          split at ha
          · exact h a ha
          · rename_i sz rest hrm
            rcases mem_update_found ha with h1 | ⟨v, hv, h1⟩
            · exact h a h1
            · rw [hu] at hv
              simp only [Option.some.injEq] at hv
              subst hv h1
              obtain ⟨h2, h3⟩ := h u (user_find_locked_some hu).1
              have h4 := remove_first_total hrm
              have hexact : size_sub u.used sz = u.used - sz :=
                size_sub_exact _ _ (by omega) (by omega)
              simp only [hexact]
              omega

theorem withinQuota_run (ops : List StorageOp) {w : World} (h : WithinQuota w.users)
    (hops : ∀ op ∈ ops, op.size_fits) : WithinQuota (run_storage w ops).users := by
  induction ops generalizing w with
  | nil => exact h
  | cons op rest ih =>
    exact ih (withinQuota_apply h op (hops op (List.mem_cons_self _ _)))
      (fun o ho => hops o (List.mem_cons_of_mem _ ho))

/-- C18 (as stated, refuted): tasks run one at a time from a fresh account.
After a 1-byte upload, an upload task with `filesize = 2 ^ 64 - 1` passes the
quota test because the sum wraps to 0; the delete of the first file then
subtracts 1 from `used = 0`, which wraps to `2 ^ 64 - 1`, above
`MAX_QUOTA`. -/
theorem quota_wrap_counterexample :
    (run_storage sample_fresh_world (sample_wrap_ops.take 2)).users.map User.used = [0] ∧
    (run_storage sample_fresh_world sample_wrap_ops).users.map User.used =
      [18446744073709551615] ∧
    MAX_QUOTA < 18446744073709551615 := by
  decide

/-- C18 (amended): when tasks run one at a time from freshly created accounts
and every upload task has a `filesize` below `2 ^ 63`, after every sequence
of `handle_upload` and `handle_delete` executions every account has
`used ≤ MAX_QUOTA`, `used` is the exact sum of its recorded sizes, and the
size of any record that `user_remove_file` can remove is at most `used`, so
the subtraction does not wrap. -/
theorem sequential_quota_bound (w : World) (ops : List StorageOp)
    (hfresh : fresh_accounts w.users) (hops : ∀ op ∈ ops, op.size_fits) :
    ∀ a ∈ (run_storage w ops).users,
      a.used ≤ MAX_QUOTA ∧
      a.used = (a.files.map FileNode.size).sum ∧
      (∀ name sz rest, remove_first a.files name = some (sz, rest) → sz ≤ a.used) := by
  have h0 : WithinQuota w.users := by
    intro a ha
    obtain ⟨h1, h2⟩ := hfresh a ha
    simp [h1, h2, files_total]
  intro a ha
  obtain ⟨h1, h2⟩ := withinQuota_run ops h0 hops a ha
  refine ⟨h2, h1, ?_⟩
  intro name sz rest hrm
  have := remove_first_total hrm
  omega

/-- C18 (amended) on two uploads of `a` (5 and 7 bytes) and one delete. -/
theorem sequential_quota_bound_witness :
    sample_account_after_delete ∈ (run_storage sample_fresh_world sample_fit_ops).users ∧
    sample_account_after_delete.used ≤ MAX_QUOTA :=
  ⟨by decide,
   (sequential_quota_bound sample_fresh_world sample_fit_ops
      (by unfold fresh_accounts; decide)
      (by intro op hop; simp only [sample_fit_ops, List.mem_cons, List.mem_singleton,
            List.mem_nil_iff, or_false] at hop
          rcases hop with h | h | h <;> subst h <;> simp [StorageOp.size_fits])
      sample_account_after_delete (by decide)).1⟩

/-! ## Passes without a reply, and an upload that stores nothing -/

/-- When the file system refuses the commit, the upload is still answered
`OK`, nothing is stored, and the DOWNLOAD that follows finds no file. -/
theorem refused_commit_evaluation :
    (client_service 4 (fun _ => ⟨1, true, false⟩) sample_session sample_refusing_world
        sample_roundtrip).out = bytes "OK\nERR File not found\n" ∧
    (client_service 4 (fun _ => ⟨1, true, false⟩) sample_session sample_refusing_world
        sample_roundtrip).world.fs (storage_path (bytes "hello") (bytes "f")) = none := by
  decide

/-- When the completion signal of the task is lost, the worker has run the
task but the session sends nothing and stays blocked, and the lines behind
the command are never read. -/
theorem lost_signal_evaluation :
    (client_service 4 (fun _ => ⟨1, true, true⟩) sample_session sample_stored_world
        [bytes "DELETE f\n", bytes "LIST\n"]).out = [] ∧
    (client_service 4 (fun _ => ⟨1, true, true⟩) sample_session sample_stored_world
        [bytes "DELETE f\n", bytes "LIST\n"]).blocked = true ∧
    (client_service 4 (fun _ => ⟨1, true, true⟩) sample_session sample_stored_world
        [bytes "DELETE f\n", bytes "LIST\n"]).world.fs
      (storage_path (bytes "hello") (bytes "f")) = none ∧
    (client_service 4 (fun _ => ⟨1, true, true⟩) sample_session sample_stored_world
        [bytes "DELETE f\n", bytes "LIST\n"]).tr = [bytes "LIST\n"] := by
  decide

/-- When `ensure_dir` cannot provide the account directory, `SIGNUP a/b pw`
ends the process: `user_create` does not return and no reply is sent. -/
theorem signup_exit_evaluation :
    user_create_call sample_no_parent_world (bytes "a/b") (bytes "pw") = none ∧
    (service_line ⟨1, true, false⟩ Session.start sample_no_parent_world []
        (bytes "SIGNUP a/b pw\n")).exited = true ∧
    (service_line ⟨1, true, false⟩ Session.start sample_no_parent_world []
        (bytes "SIGNUP a/b pw\n")).out = [] := by
  decide

end Dropbox
